import Mathlib

/-!
Verification development for the projection-subtraction program
(`projection_subtraction.py`).  The per-particle pipeline, the metadata
bookkeeping and the output loop are embedded shallowly below; the EMAN2 /
SPARX collaborators (image loading, volume projection, CTF synthesis and
filtering, the spider-convention rotation action, the FRC optimal-scale
core, the normalize processor, the center-of-mass routine and relative-path
computation) are kept abstract as fields of the `Ext` record, since they are
external library code.  Numeric values are modelled as rationals.
-/

namespace ProjSub

/-- A cell of the particle metadata table (one entry of a `.star` column):
either a text field or a numeric field. -/
inductive StarVal where
  | s (v : String)
  | q (v : ℚ)
deriving DecidableEq

/-- Python `str()` of a cell, as used when serializing an output row. -/
def StarVal.pyStr : StarVal → String
  | .s v => v
  | .q v => toString v

/-- Numeric contents of a cell; the metadata reads in the source expect
numbers in the numeric columns. -/
def StarVal.num : StarVal → ℚ
  | .s _ => 0
  | .q v => v

/-- Python `str.split(sep)` on the character lists of a string, for a
one-character separator: the groups of characters between occurrences of the
separator.  Splitting a string without the separator gives one group. -/
def splitChars (sep : Char) : List Char → List (List Char)
  | [] => [[]]
  | c :: cs =>
    match splitChars sep cs with
    | [] => [[]]
    | g :: gs => if c = sep then [] :: g :: gs else (c :: g) :: gs

/-- Python `str.split(sep)` for a one-character separator. -/
def pySplit (s : String) (sep : Char) : List String :=
  (splitChars sep s.data).map String.mk

/-- Decimal digit accumulator for `pyInt?`. -/
def pyDigitsAux : ℕ → List Char → Option ℕ
  | acc, [] => some acc
  | acc, c :: cs =>
    if c.isDigit then pyDigitsAux (10 * acc + (c.toNat - 48)) cs else none

/-- Python `int(s)` on the strings this program meets: an optional sign
followed by at least one decimal digit; anything else raises `ValueError`,
modelled by `none`. -/
def pyInt? (s : String) : Option ℤ :=
  match s.data with
  | [] => none
  | '-' :: ds =>
    match ds with
    | [] => none
    | _ => (pyDigitsAux 0 ds).map fun n => -(n : ℤ)
  | '+' :: ds =>
    match ds with
    | [] => none
    | _ => (pyDigitsAux 0 ds).map fun n => (n : ℤ)
  | ds => (pyDigitsAux 0 ds).map fun n => (n : ℤ)

/-- Python `x.endswith(y)`. -/
def pyEndsWith (x y : String) : Bool := y.data.isSuffixOf x.data

/-- The metadata table (`StarFile`): the heading order of the table plus a
column of cells for every key. -/
structure StarFile where
  headings : List String
  col : String → List StarVal

/-- Read `star[key][i]`. -/
def StarFile.cell (star : StarFile) (key : String) (i : ℕ) : StarVal :=
  (star.col key).getD i (.s "")

/-- Read `star[key][i]` as a number. -/
def StarFile.num (star : StarFile) (key : String) (i : ℕ) : ℚ :=
  (star.cell key i).num

/-- In-place assignment `star[key][i] = v`. -/
def StarFile.set (star : StarFile) (key : String) (i : ℕ) (v : StarVal) : StarFile :=
  { headings := star.headings
    col := fun k => if k = key then (star.col key).set i v else star.col k }

/-- A 2D image (an `EMData` object holding one particle image or one
projection): pixel dimensions and pixel values. -/
structure EMImage where
  nx : ℕ
  ny : ℕ
  px : ℕ → ℕ → ℚ

/-- A 3D density volume (an `EMData` object holding a map). -/
structure EMVolume where
  n : ℕ
  vox : ℕ → ℕ → ℕ → ℚ

/-- Elementwise volume difference, as in `dens - sub_dens` (source line 56);
the two maps share their voxel grid. -/
def EMVolume.subV (a b : EMVolume) : EMVolume :=
  { n := a.n, vox := fun x y z => a.vox x y z - b.vox x y z }

/-- A 3-vector (`Vec3f`). -/
structure Vec3 where
  x : ℚ
  y : ℚ
  z : ℚ
deriving DecidableEq

instance : Sub Vec3 := ⟨fun a b => ⟨a.x - b.x, a.y - b.y, a.z - b.z⟩⟩

/-- Spider-convention Euler angles, in the order they are recorded by
`Transform.set_rotation({'psi': .., 'phi': .., 'theta': .., 'type': 'spider'})`
(source lines 168 and 185). -/
structure SpiderAngles where
  phi : ℚ
  theta : ℚ
  psi : ℚ
deriving DecidableEq

/-- An EMAN2 `Transform` object, restricted to what the source uses: an
optional spider-convention rotation and a translation. -/
structure Transform where
  rot : Option SpiderAngles
  trans : Vec3

/-- `Transform()`: identity rotation, zero translation. -/
def Transform.init : Transform := { rot := none, trans := ⟨0, 0, 0⟩ }

/-- `t.set_rotation({... 'type': 'spider'})`. -/
def Transform.set_rotation (t : Transform) (a : SpiderAngles) : Transform :=
  { t with rot := some a }

/-- `t.set_trans(dx, dy)`: sets an in-plane translation. -/
def Transform.set_trans (t : Transform) (dx dy : ℚ) : Transform :=
  { t with trans := ⟨dx, dy, 0⟩ }

/-- `t.transform(v)`: the rotation part acts on the vector through the
abstract spider-convention rotation action `rotAct`, then the translation
is added. -/
def Transform.transform (rotAct : SpiderAngles → Vec3 → Vec3) (t : Transform) (v : Vec3) : Vec3 :=
  let r := match t.rot with
    | some a => rotAct a v
    | none => v
  ⟨r.x + t.trans.x, r.y + t.trans.y, r.z + t.trans.z⟩

/-- Particle metadata for the i-th table row (class `MetaData`,
source lines 216-245). -/
structure MetaData where
  i : ℕ
  phi : ℚ
  psi : ℚ
  theta : ℚ
  x_origin : ℚ
  y_origin : ℚ
  defocus : ℚ
  dfdiff : ℚ
  dfang : ℚ
  apix : ℚ
  voltage : ℚ
  cs : ℚ
  ac : ℚ
  bfactor : ℚ
  ctf_params : List ℚ

/-- `MetaData.__init__` (source lines 222-245): Euler angles, origin, and the
CTFFIND4-to-sparx converted CTF parameters of the i-th particle. -/
def MetaData.init (star : StarFile) (i : ℕ) : MetaData :=
  let defocus := (star.num "rlnDefocusU" i + star.num "rlnDefocusV" i) / 20000
  let dfdiff := (star.num "rlnDefocusU" i - star.num "rlnDefocusV" i) / 10000
  let dfang := 90 - star.num "rlnDefocusAngle" i
  let apix := 10000 * star.num "rlnDetectorPixelSize" i / star.num "rlnMagnification" i
  let voltage := star.num "rlnVoltage" i
  let cs := star.num "rlnSphericalAberration" i
  let ac := star.num "rlnAmplitudeContrast" i * 100
  let bfactor := 0
  { i := i
    phi := star.num "rlnAngleRot" i
    psi := star.num "rlnAnglePsi" i
    theta := star.num "rlnAngleTilt" i
    x_origin := star.num "rlnOriginX" i
    y_origin := star.num "rlnOriginY" i
    defocus := defocus
    dfdiff := dfdiff
    dfang := dfang
    apix := apix
    voltage := voltage
    cs := cs
    ac := ac
    bfactor := bfactor
    ctf_params := [defocus, cs, voltage, apix, bfactor, ac, dfdiff, dfang] }

/-- `MetaData.update` (source lines 247-255): writes back ONLY the origin
fields to the table. -/
def MetaData.update (m : MetaData) (star : StarFile) : StarFile :=
  (star.set "rlnOriginX" m.i (.q m.x_origin)).set "rlnOriginY" m.i (.q m.y_origin)

/-- Run-level errors: a malformed image reference in the input table, an
image-shape mismatch inside the subtraction, or the writer's ordering
assertion firing.  Each aborts the run. -/
inductive RunErr where
  | InputFormatError
  | IncompatibleShapes
  | AssertionError
deriving DecidableEq

/-- The result of one particle's subtraction pass (class `Result`,
source lines 193-213). -/
structure Result where
  ptcl : EMImage
  meta : MetaData
  ctfproj : EMImage
  ctfproj_sub : EMImage
  ptcl_sub : EMImage
  ptcl_norm_sub : EMImage

/-- The external EMAN2 / SPARX / os.path collaborators of the source, kept
abstract: `load` is `EMData(name, n)`, `project` is `EMData.project
("standard", t)`, `generate_ctf` and `filt_ctf` are the sparx CTF synthesis
and filter, `rotAct` is the spider-convention rotation action of a
`Transform` on a `Vec3f`, `subOpt` is the frequency-weighted optimal-scale
core of the `math.sub.optimal` processor on shape-compatible images,
`normalizeP` is the `normalize` processor, `phase_cog` is `EMData.phase_cog`
(the intensity-weighted center of mass) and `relpath1` is
`os.path.sep.join(os.path.relpath(a, b).split(os.path.sep)[1:])`. -/
structure Ext where
  load : String → ℤ → EMImage
  project : EMVolume → Transform → EMImage
  generate_ctf : List ℚ → List ℚ
  filt_ctf : EMImage → List ℚ → EMImage
  rotAct : SpiderAngles → Vec3 → Vec3
  subOpt : EMImage → EMImage → EMImage → ℚ → ℚ → EMImage
  normalizeP : EMImage → EMImage
  phase_cog : EMVolume → Vec3
  relpath1 : String → String → String

/-- Modelled from the spec: the EMAN2 elementwise image subtraction used by
`ptcl - ctfproj_sub` in direct mode (source line 157) is external library
code; the spec (section 4.3) requires the subtraction to fail with
`IncompatibleShapes` when the images differ in pixel dimensions. -/
def EMImage.subI (a b : EMImage) : Except RunErr EMImage :=
  if a.nx = b.nx ∧ a.ny = b.ny then
    .ok { nx := a.nx, ny := a.ny, px := fun x y => a.px x y - b.px x y }
  else .error .IncompatibleShapes

/-- Modelled from the spec: the EMAN2 `math.sub.optimal` processor invoked at
source lines 159-161 is external library code; its frequency-weighted
optimal-scale core stays abstract (field `subOpt`), while the spec (section
4.3) requires failure with `IncompatibleShapes` when the particle image and
the projections differ in pixel dimensions. -/
def mathSubOptimal (E : Ext) (ptcl ref actual : EMImage) (lo hi : ℚ) : Except RunErr EMImage :=
  if ptcl.nx = ref.nx ∧ ptcl.ny = ref.ny ∧ ptcl.nx = actual.nx ∧ ptcl.ny = actual.ny then
    .ok (E.subOpt ptcl ref actual lo hi)
  else .error .IncompatibleShapes

/-- `make_proj` (source lines 177-190): build a spider-convention transform
from the particle's Euler angles with the negated origin as translation,
project the density, and CTF-filter the projection with the particle's CTF
parameters. -/
def make_proj (E : Ext) (dens : EMVolume) (meta : MetaData) : EMImage :=
  let t := Transform.init
  let t := t.set_rotation ⟨meta.phi, meta.theta, meta.psi⟩
  let t := t.set_trans (-meta.x_origin) (-meta.y_origin)
  let proj := E.project dens t
  let ctf := E.generate_ctf meta.ctf_params
  E.filt_ctf proj ctf

/-- `subtract` (source lines 140-174): one particle's projection
subtraction.  Direct mode subtracts the sub-map projection elementwise;
otherwise the `math.sub.optimal` processor is used with the whole-map
projection as reference.  The result is normalized, and when a recentering
vector is given it is rotated by the particle's spider Euler angles and its
x/y components are added to the particle origin. -/
def subtract (E : Ext) (particle : EMImage × MetaData) (dens sub_dens : EMVolume)
    (recenter : Option Vec3) (no_frc : Bool) (low_cutoff high_cutoff : ℚ) :
    Except RunErr Result := do
  let ptcl := particle.1
  let meta := particle.2
  let ctfproj := make_proj E dens meta
  let ctfproj_sub := make_proj E sub_dens meta
  let ptcl_sub ← if no_frc then ptcl.subI ctfproj_sub
    else mathSubOptimal E ptcl ctfproj ctfproj_sub low_cutoff high_cutoff
  let ptcl_norm_sub := E.normalizeP ptcl_sub
  let meta := match recenter with
    | none => meta
    | some v =>
      let t := Transform.init.set_rotation ⟨meta.phi, meta.theta, meta.psi⟩
      let shift := Transform.transform E.rotAct t v
      { meta with x_origin := meta.x_origin + shift.x, y_origin := meta.y_origin + shift.y }
  .ok { ptcl := ptcl, meta := meta, ctfproj := ctfproj, ctfproj_sub := ctfproj_sub,
        ptcl_sub := ptcl_sub, ptcl_norm_sub := ptcl_norm_sub }

/-- One step of the `particles` generator (source lines 131-137): split the
i-th `rlnImageName` at the `@` separator, convert the 1-based frame token to
a 0-based load index with Python `int`, load the image and build the
particle metadata.  Python raises, aborting the run, when the separator is
missing (`IndexError`) or the frame token is not an integer (`ValueError`);
both are modelled by `none`. -/
def particlesStep (E : Ext) (star : StarFile) (i : ℕ) : Option (EMImage × MetaData) :=
  match pySplit (star.cell "rlnImageName" i).pyStr '@' with
  | t :: p :: _ =>
    match pyInt? t with
    | some n => some (E.load p (n - 1), MetaData.init star i)
    | none => none
  | _ => none

/-- The `particles` generator (source lines 125-137), unrolled from row `i`
for `fuel` rows: the particle/metadata pairs in table order, or the
run-aborting input error. -/
def particlesFrom (E : Ext) (star : StarFile) : ℕ → ℕ → Except RunErr (List (EMImage × MetaData))
  | _, 0 => .ok []
  | i, fuel + 1 =>
    match particlesStep E star i with
    | some p => do
      let rest ← particlesFrom E star (i + 1) fuel
      .ok (p :: rest)
    | none => .error .InputFormatError

/-- The output filesystem: maps a path to the image stack stored there,
if any. -/
abbrev FS := String → Option (List EMImage)

/-- `os.path.exists`. -/
def FS.hasFile (fs : FS) (p : String) : Bool := (fs p).isSome

/-- `os.remove`. -/
def FS.removeFile (fs : FS) (p : String) : FS :=
  fun q => if q = p then none else fs q

/-- `EMData.append_image`: append to the stack at a path, creating the file
when absent. -/
def FS.appendImage (fs : FS) (p : String) (img : EMImage) : FS :=
  fun q => if q = p then some ((fs p).getD [] ++ [img]) else fs q

/-- Number of particles currently stored in the stack at a path. -/
def FS.count (fs : FS) (p : String) : ℕ := ((fs p).getD []).length

/-- The configuration surface of `main` (the parsed command-line options the
source reads). -/
structure Options where
  input : String
  wholemap : String
  submap : String
  output : String
  nproc : ℕ
  maxpart : ℕ
  recenter : Bool
  original : Bool
  low_cutoff : ℚ
  high_cutoff : ℚ
  no_frc : Bool
  suffix : String

/-- `rchop` (source line 35): drop a trailing extension when present. -/
def rchop (x y : String) : String :=
  if ¬ pyEndsWith x y = true ∨ y.data.length = 0 then x
  else String.mk (x.data.take (x.data.length - y.data.length))

/-- The option normalization at the top of `main` (source lines 36-38). -/
def normOpts (o : Options) : Options :=
  { o with output := rchop o.output ".star",
           suffix := rchop (rchop o.suffix ".mrc") ".mrcs" }

/-- Python `"%06d"`-style formatting of the in-stack particle index
(`"{0:06d}"` at source line 110): decimal digits left-padded with zeros to
width 6. -/
def fmt6 (n : ℕ) : String :=
  String.mk (List.replicate (6 - (Nat.repr n).length) '0' ++ (Nat.repr n).data)

/-- One output `.star` data line (source line 112): the row's cells in the
table's heading order, joined by two spaces. -/
def serializeLine (star : StarFile) (i : ℕ) : String :=
  String.intercalate "  " (star.headings.map fun key => (star.cell key i).pyStr)

/-- The state of the output loop of `main` (source lines 75-79): running
count, next stack-file number, the three current path strings, the mutable
metadata table, the filesystem, and the data lines written to the output
table so far. -/
structure WState where
  i : ℕ
  nfile : ℕ
  starpath : Option String
  mrcs : Option String
  mrcsOrig : Option String
  star : StarFile
  fs : FS
  lines : List String

/-- The initial writer state (source lines 75-79). -/
def initState (star : StarFile) (fs : FS) : WState :=
  { i := 0, nfile := 1, starpath := none, mrcs := none, mrcsOrig := none,
    star := star, fs := fs, lines := [] }

/-- The stack-rotation block at the top of the output loop (source lines
81-91): when the global index is a multiple of `maxpart`, open the next
stack pair, deleting any pre-existing files at those paths. -/
def rotateStacks (E : Ext) (opts : Options) (st : WState) : WState :=
  if st.i % opts.maxpart = 0 then
    let mrcsuffix := opts.suffix ++ "_" ++ Nat.repr st.nfile
    let starpath := E.relpath1 mrcsuffix opts.output ++ ".mrcs"
    let mrcs := mrcsuffix ++ ".mrcs"
    let mrcsOrig := mrcsuffix ++ "_original.mrcs"
    let fs := if st.fs.hasFile mrcs then st.fs.removeFile mrcs else st.fs
    let fs := if FS.hasFile fs mrcsOrig then FS.removeFile fs mrcsOrig else fs
    { st with
      nfile := st.nfile + 1
      starpath := some starpath
      mrcs := some mrcs
      mrcsOrig := some mrcsOrig
      fs := fs }
  else st

/-- One iteration of the output loop (source lines 80-114): rotate the
stacks when due; append the normalized-subtracted (and optionally the
original) image; check the ordering assertion; rewrite the image name,
write back the metadata origins and emit the serialized row. -/
def writeStep (E : Ext) (opts : Options) (st0 : WState) (r : Result) : Except RunErr WState :=
  let st := rotateStacks E opts st0
  let fs := st.fs.appendImage (st.mrcs.getD "") r.ptcl_norm_sub
  let fs := if opts.original then fs.appendImage (st.mrcsOrig.getD "") r.ptcl else fs
  if r.meta.i = st.i then
    let star := st.star.set "rlnImageName" st.i
      (.s (fmt6 (st.i % opts.maxpart + 1) ++ "@" ++ st.starpath.getD ""))
    let star := r.meta.update star
    .ok { st with
          i := st.i + 1
          star := star
          fs := fs
          lines := st.lines ++ [serializeLine star st.i] }
  else .error .AssertionError

/-- The output loop of `main` (source lines 80-114) over a list of results. -/
def writeLoop (E : Ext) (opts : Options) : List Result → WState → Except RunErr WState
  | [], st => .ok st
  | r :: rs, st => do
    let st' ← writeStep E opts st r
    writeLoop E opts rs st'

/-- The recentering vector computed once in `main` before per-particle work
(source lines 55-60): the difference between the center of mass of the whole
map and that of the whole-minus-sub map, or `none` when recentering is off. -/
def mainRecenter (flag : Bool) (phase_cog : EMVolume → Vec3) (dens sub_dens : EMVolume) :
    Option Vec3 :=
  if flag then
    let new_dens := dens.subV sub_dens
    some (phase_cog dens - phase_cog new_dens)
  else none

/-- The per-particle results of one run, in input order (`main`, serial
branch, source lines 70-72): the particles of the table, each passed
through `subtract` with the shared maps and the once-computed recentering
vector. -/
def resultsFor (E : Ext) (opts : Options) (star : StarFile) (dens sub_dens : EMVolume) :
    Except RunErr (List Result) := do
  let npart := (star.col "rlnImageName").length
  let recenter := mainRecenter opts.recenter E.phase_cog dens sub_dens
  let ps ← particlesFrom E star 0 npart
  ps.mapM fun p => subtract E p dens sub_dens recenter opts.no_frc opts.low_cutoff opts.high_cutoff

/-- The serial execution of `main` (source lines 29-122 with `nproc = 1`):
normalize the output and suffix names, produce the subtraction results for
particles `0..N-1` in order and run the output loop over them.  The parallel
branch (source lines 63-69) differs only in scheduling, and the debug-image
branch and the output-table header write touch no modelled state. -/
def mainRun (E : Ext) (opts0 : Options) (star : StarFile) (dens sub_dens : EMVolume)
    (fs0 : FS) : Except RunErr WState :=
  let opts := normOpts opts0
  do
    let rs ← resultsFor E opts star dens sub_dens
    writeLoop E opts rs (initState star fs0)

/-- The path of the k-th output stack (source lines 82-86 with
`nfile = k`). -/
def mrcsPath (suffix : String) (k : ℕ) : String :=
  suffix ++ "_" ++ Nat.repr k ++ ".mrcs"

/-- The path of the k-th original-particle stack (source line 87). -/
def origPath (suffix : String) (k : ℕ) : String :=
  suffix ++ "_" ++ Nat.repr k ++ "_original.mrcs"

/-- The relative stack path written into the image names of the k-th stack
(source lines 84-85). -/
def relStarPath (E : Ext) (suffix output : String) (k : ℕ) : String :=
  E.relpath1 (suffix ++ "_" ++ Nat.repr k) output ++ ".mrcs"

/-- Number of stacks opened after processing j particles with cap m:
the ceiling of j / m. -/
def numStacks (m j : ℕ) : ℕ := (j + m - 1) / m

/-- The decimal digit characters of a natural number, most significant
first: the fuel-free specification of `Nat.toDigits 10`. -/
def natChars (n : ℕ) : List Char :=
  if _h : n < 10 then [Nat.digitChar n]
  else natChars (n / 10) ++ [Nat.digitChar (n % 10)]
termination_by n
decreasing_by
  exact Nat.div_lt_self (by omega) (by omega)

/-- The writer-state invariant: after `j` particles have been written,
starting from a clean initial state over the filesystem `fs0`, the
bookkeeping fields, the current path strings and the stack contents of the
state are determined as follows. -/
structure WInv (E : Ext) (opts : Options) (fs0 : FS) (j : ℕ) (st : WState) : Prop where
  hi : st.i = j
  hnfile : st.nfile = numStacks opts.maxpart j + 1
  hmrcs : 0 < j → st.mrcs = some (mrcsPath opts.suffix (numStacks opts.maxpart j))
  hmorig : 0 < j → st.mrcsOrig = some (origPath opts.suffix (numStacks opts.maxpart j))
  hsp : 0 < j → st.starpath =
    some (relStarPath E opts.suffix opts.output (numStacks opts.maxpart j))
  hcount : ∀ k, 1 ≤ k → k ≤ numStacks opts.maxpart j →
    ∃ l, st.fs (mrcsPath opts.suffix k) = some l ∧
      l.length = min opts.maxpart (j - opts.maxpart * (k - 1))
  hcorig : ∀ k, 1 ≤ k → k ≤ numStacks opts.maxpart j →
    (opts.original = true → ∃ l, st.fs (origPath opts.suffix k) = some l ∧
      l.length = min opts.maxpart (j - opts.maxpart * (k - 1))) ∧
    (opts.original = false → st.fs (origPath opts.suffix k) = none)
  hother : ∀ p, (∀ k, 1 ≤ k → k ≤ numStacks opts.maxpart j →
      p ≠ mrcsPath opts.suffix k ∧ p ≠ origPath opts.suffix k) →
    st.fs p = fs0 p

/-- The writer state right after the stack-rotation block, about to write
particle `j`: the current stack is the `numStacks maxpart (j+1)`-th one, all
earlier stacks are full, and the current stack holds the particles written
since it was opened. -/
structure WOpen (E : Ext) (opts : Options) (fs0 : FS) (j : ℕ) (st : WState) : Prop where
  hi : st.i = j
  hnfile : st.nfile = numStacks opts.maxpart (j + 1) + 1
  hmrcs : st.mrcs = some (mrcsPath opts.suffix (numStacks opts.maxpart (j + 1)))
  hmorig : st.mrcsOrig = some (origPath opts.suffix (numStacks opts.maxpart (j + 1)))
  hsp : st.starpath =
    some (relStarPath E opts.suffix opts.output (numStacks opts.maxpart (j + 1)))
  harith : opts.maxpart * (numStacks opts.maxpart (j + 1) - 1) ≤ j ∧
    j - opts.maxpart * (numStacks opts.maxpart (j + 1) - 1) < opts.maxpart ∧
    1 ≤ numStacks opts.maxpart (j + 1)
  hfull : ∀ k, 1 ≤ k → k < numStacks opts.maxpart (j + 1) →
    ∃ l, st.fs (mrcsPath opts.suffix k) = some l ∧ l.length = opts.maxpart
  hcur : ((st.fs (mrcsPath opts.suffix (numStacks opts.maxpart (j + 1)))).getD []).length =
    j - opts.maxpart * (numStacks opts.maxpart (j + 1) - 1)
  hofull : ∀ k, 1 ≤ k → k < numStacks opts.maxpart (j + 1) →
    (opts.original = true → ∃ l, st.fs (origPath opts.suffix k) = some l ∧
      l.length = opts.maxpart) ∧
    (opts.original = false → st.fs (origPath opts.suffix k) = none)
  hocur : (opts.original = true →
      ((st.fs (origPath opts.suffix (numStacks opts.maxpart (j + 1)))).getD []).length =
        j - opts.maxpart * (numStacks opts.maxpart (j + 1) - 1)) ∧
    (opts.original = false →
      st.fs (origPath opts.suffix (numStacks opts.maxpart (j + 1))) = none)
  hother : ∀ p, (∀ k, 1 ≤ k → k ≤ numStacks opts.maxpart (j + 1) →
      p ≠ mrcsPath opts.suffix k ∧ p ≠ origPath opts.suffix k) →
    st.fs p = fs0 p

/-- Concrete stand-ins for the external collaborators, for evaluating the
pipeline on small inputs. -/
def wExt : Ext :=
  { load := fun _ _ => ⟨2, 2, fun x y => (x : ℚ) + y⟩
    project := fun _ _ => ⟨2, 2, fun _ _ => 1⟩
    generate_ctf := fun l => l
    filt_ctf := fun img _ => img
    rotAct := fun _ v => v
    subOpt := fun p _ _ _ _ => p
    normalizeP := fun img => img
    phase_cog := fun _ => ⟨1, 2, 3⟩
    relpath1 := fun a _ => a }

/-- A collaborator whose projections have a different shape than the loaded
particle images. -/
def wExtBad : Ext := { wExt with project := fun _ _ => ⟨3, 3, fun _ _ => 0⟩ }

/-- A three-particle metadata table. -/
def wStar : StarFile :=
  { headings := ["rlnImageName", "rlnOriginX", "rlnOriginY", "rlnDefocusU", "rlnDefocusV"]
    col := fun k =>
      if k = "rlnImageName" then
        [.s "000001@a.mrcs", .s "000002@a.mrcs", .s "000001@b.mrcs"]
      else if k = "rlnOriginX" then [.q 1, .q 2, .q 3]
      else if k = "rlnOriginY" then [.q 4, .q 5, .q 6]
      else if k = "rlnDefocusU" then [.q 20000, .q 20000, .q 20000]
      else if k = "rlnDefocusV" then [.q 0, .q 10000, .q 20000]
      else [] }

/-- A one-particle table with a non-integer frame token. -/
def wStarBad1 : StarFile :=
  { headings := ["rlnImageName"]
    col := fun k => if k = "rlnImageName" then [.s "ab@c.mrcs"] else [] }

/-- A one-particle table whose image reference lacks the separator. -/
def wStarBad2 : StarFile :=
  { headings := ["rlnImageName"]
    col := fun k => if k = "rlnImageName" then [.s "abc"] else [] }

/-- A small option set: two particles per stack, direct subtraction,
originals kept, no recentering. -/
def wOpts : Options :=
  { input := "in.star", wholemap := "w.mrc", submap := "s.mrc", output := "out",
    nproc := 1, maxpart := 2, recenter := false, original := true,
    low_cutoff := 0, high_cutoff := 7071 / 10000, no_frc := true, suffix := "sub" }

/-- A tiny uniform density volume. -/
def wVol : EMVolume := ⟨2, fun _ _ _ => 1⟩

/-- An empty output filesystem. -/
def wFS : FS := fun _ => none

/-- A result carrying the wrong record index for the very first iteration. -/
def wBad : Result :=
  { ptcl := ⟨2, 2, fun _ _ => 0⟩, meta := MetaData.init wStar 5, ctfproj := ⟨2, 2, fun _ _ => 0⟩,
    ctfproj_sub := ⟨2, 2, fun _ _ => 0⟩, ptcl_sub := ⟨2, 2, fun _ _ => 0⟩,
    ptcl_norm_sub := ⟨2, 2, fun _ _ => 0⟩ }

/-- The result of a concrete recentered subtraction. -/
def wC5res : Result :=
  (subtract wExt (⟨2, 2, fun _ _ => 0⟩, MetaData.init wStar 0) wVol wVol
    (some ⟨10, 20, 30⟩) true 0 1).toOption.getD wBad

/-- The results and final writer state of the concrete three-particle run. -/
def wRS : List Result :=
  (resultsFor wExt (normOpts wOpts) wStar wVol wVol).toOption.getD []

/-- The final writer state of the concrete three-particle run. -/
def wStf : WState :=
  (mainRun wExt wOpts wStar wVol wVol wFS).toOption.getD (initState wStar wFS)

/-- A writer state about to rotate, over a filesystem that already holds a
file at the first stack path. -/
def wSt : WState :=
  { i := 0, nfile := 1, starpath := none, mrcs := none, mrcsOrig := none,
    star := wStar, fs := fun _ => some [⟨2, 2, fun _ _ => 0⟩], lines := [] }

theorem Vec3.sub_def (a b : Vec3) : a - b = ⟨a.x - b.x, a.y - b.y, a.z - b.z⟩ := rfl

theorem toDigitsCore_eq_natChars (fuel n : ℕ) (acc : List Char) (h : n < fuel) :
    Nat.toDigitsCore 10 fuel n acc = natChars n ++ acc := by
  induction fuel generalizing n acc with
  | zero => omega
  | succ fuel ih =>
    rw [Nat.toDigitsCore]
    by_cases h10 : n / 10 = 0
    · have hn : n < 10 := by omega
      rw [natChars]
      simp [h10, hn, Nat.mod_eq_of_lt hn]
    · have hn : ¬ n < 10 := by
        intro hlt
        exact h10 (Nat.div_eq_of_lt hlt)
      have hrec : n / 10 < fuel := by
        have h1 : n / 10 < n := Nat.div_lt_self (by omega) (by omega)
        omega
      rw [natChars]
      simp only [hn, dite_false, h10, ite_false, ih (n / 10) _ hrec, List.append_assoc,
        List.singleton_append]

theorem repr_data_eq_natChars (n : ℕ) : (Nat.repr n).data = natChars n := by
  have h := toDigitsCore_eq_natChars (n + 1) n [] (by omega)
  simp [Nat.repr, Nat.toDigits, h, List.asString]

theorem digitChar_isDigit {m : ℕ} (h : m < 10) : (Nat.digitChar m).isDigit = true := by
  interval_cases m <;> decide

theorem natChars_isDigit (n : ℕ) : ∀ c ∈ natChars n, c.isDigit = true := by
  induction n using Nat.strong_induction_on with
  | _ n ih =>
    rw [natChars]
    by_cases h : n < 10
    · simp [h, digitChar_isDigit h]
    · simp only [h, dite_false]
      intro c hc
      rcases List.mem_append.1 hc with h1 | h1
      · exact ih (n / 10) (Nat.div_lt_self (by omega) (by omega)) c h1
      · rcases List.mem_singleton.1 h1 with rfl
        exact digitChar_isDigit (Nat.mod_lt n (by omega))

theorem natChars_ne_nil (n : ℕ) : natChars n ≠ [] := by
  rw [natChars]
  by_cases h : n < 10 <;> simp [h]

theorem digitChar_inj_lt {a b : ℕ} (ha : a < 10) (hb : b < 10)
    (h : Nat.digitChar a = Nat.digitChar b) : a = b := by
  have key : ∀ x y : Fin 10, Nat.digitChar x = Nat.digitChar y → x = y := by decide
  have := key ⟨a, ha⟩ ⟨b, hb⟩ h
  exact congrArg Fin.val this

theorem natChars_eq (n : ℕ) :
    natChars n =
      if n < 10 then [Nat.digitChar n] else natChars (n / 10) ++ [Nat.digitChar (n % 10)] := by
  rw [natChars]
  by_cases h : n < 10 <;> simp [h]

theorem natChars_inj {a b : ℕ} (h : natChars a = natChars b) : a = b := by
  induction a using Nat.strong_induction_on generalizing b with
  | _ a ih =>
    rw [natChars_eq a, natChars_eq b] at h
    by_cases ha : a < 10 <;> by_cases hb : b < 10
    · simp only [ha, hb, if_true] at h
      exact digitChar_inj_lt ha hb (List.singleton_injective h)
    · simp only [ha, hb, if_true, if_false] at h
      have hlen := congrArg List.length h
      simp only [List.length_singleton, List.length_append] at hlen
      have : natChars (b / 10) = [] := List.length_eq_zero.1 (by omega)
      exact absurd this (natChars_ne_nil (b / 10))
    · simp only [ha, hb, if_true, if_false] at h
      have hlen := congrArg List.length h
      simp only [List.length_singleton, List.length_append] at hlen
      have : natChars (a / 10) = [] := List.length_eq_zero.1 (by omega)
      exact absurd this (natChars_ne_nil (a / 10))
    · simp only [ha, hb, if_false] at h
      have hinj := List.append_inj' h (by simp)
      have h1 : a / 10 = b / 10 := ih (a / 10) (Nat.div_lt_self (by omega) (by omega)) hinj.1
      have h2 : a % 10 = b % 10 := by
        have := List.singleton_injective hinj.2
        exact digitChar_inj_lt (Nat.mod_lt a (by omega)) (Nat.mod_lt b (by omega)) this
      omega

theorem repr_inj {a b : ℕ} (h : Nat.repr a = Nat.repr b) : a = b :=
  natChars_inj (by rw [← repr_data_eq_natChars, ← repr_data_eq_natChars, h])

theorem repr_no_underscore (n : ℕ) : '_' ∉ (Nat.repr n).data := by
  rw [repr_data_eq_natChars]
  intro hmem
  have := natChars_isDigit n '_' hmem
  simp [Char.isDigit] at this

theorem mrcsPath_inj {s : String} {k k' : ℕ} (h : mrcsPath s k = mrcsPath s k') : k = k' := by
  apply repr_inj
  apply String.ext
  have hd := congrArg String.data h
  simp only [mrcsPath, String.data_append, List.append_assoc] at hd
  have h1 := List.append_cancel_left hd
  have h2 := List.append_cancel_left h1
  exact List.append_cancel_right h2

theorem origPath_inj {s : String} {k k' : ℕ} (h : origPath s k = origPath s k') : k = k' := by
  apply repr_inj
  apply String.ext
  have hd := congrArg String.data h
  simp only [origPath, String.data_append, List.append_assoc] at hd
  have h1 := List.append_cancel_left hd
  have h2 := List.append_cancel_left h1
  exact List.append_cancel_right h2

theorem mrcsPath_ne_origPath (s : String) (k k' : ℕ) : mrcsPath s k ≠ origPath s k' := by
  intro h
  have hd := congrArg String.data h
  simp only [mrcsPath, origPath, String.data_append, List.append_assoc] at hd
  have h1 := List.append_cancel_left hd
  have h2 := List.append_cancel_left h1
  have hmem : '_' ∈ (Nat.repr k).data ++ ".mrcs".data := by
    rw [h2]
    refine List.mem_append.2 (Or.inr ?_)
    decide
  rcases List.mem_append.1 hmem with h3 | h3
  · exact repr_no_underscore k h3
  · simp at h3

theorem numStacks_zero (m : ℕ) : numStacks m 0 = 0 := by
  unfold numStacks
  rcases Nat.eq_zero_or_pos m with h | h
  · simp [h]
  · exact Nat.div_eq_of_lt (by omega)

theorem numStacks_mod_eq {m j : ℕ} (hm : 0 < m) (hj : j % m = 0) :
    numStacks m j = j / m ∧ numStacks m (j + 1) = j / m + 1 := by
  have hqr := Nat.div_add_mod j m
  have hd1 : (m - 1) / m = 0 := Nat.div_eq_of_lt (by omega)
  have hd0 : (0 : ℕ) / m = 0 := Nat.zero_div m
  constructor
  · unfold numStacks
    have h1 : j + m - 1 = m * (j / m) + (m - 1) := by omega
    rw [h1, Nat.mul_add_div hm, hd1]
    omega
  · unfold numStacks
    have h3 : m * (j / m + 1) = m * (j / m) + m := Nat.mul_succ m (j / m)
    have h2 : j + 1 + m - 1 = m * (j / m + 1) + 0 := by omega
    rw [h2, Nat.mul_add_div hm, hd0]

theorem numStacks_mod_ne {m j : ℕ} (hm : 0 < m) (hj : j % m ≠ 0) :
    numStacks m j = j / m + 1 ∧ numStacks m (j + 1) = j / m + 1 := by
  have hqr := Nat.div_add_mod j m
  have hlt : j % m < m := Nat.mod_lt j hm
  have h3 : m * (j / m + 1) = m * (j / m) + m := Nat.mul_succ m (j / m)
  have hd1 : (j % m - 1) / m = 0 := Nat.div_eq_of_lt (by omega)
  have hd2 : (j % m) / m = 0 := Nat.div_eq_of_lt hlt
  constructor
  · unfold numStacks
    have h1 : j + m - 1 = m * (j / m + 1) + (j % m - 1) := by omega
    rw [h1, Nat.mul_add_div hm, hd1]
  · unfold numStacks
    have h2 : j + 1 + m - 1 = m * (j / m + 1) + (j % m) := by omega
    rw [h2, Nat.mul_add_div hm, hd2]

theorem StarFile.headings_set (star : StarFile) (key : String) (i : ℕ) (v : StarVal) :
    (star.set key i v).headings = star.headings := rfl

theorem StarFile.col_set_self (star : StarFile) (key : String) (i : ℕ) (v : StarVal) :
    (star.set key i v).col key = (star.col key).set i v := by
  simp [StarFile.set]

theorem StarFile.col_set_ne (star : StarFile) {key k : String} (i : ℕ) (v : StarVal)
    (h : k ≠ key) : (star.set key i v).col k = star.col k := by
  simp [StarFile.set, h]

theorem StarFile.cell_eq_getElem? (star : StarFile) (key : String) (i : ℕ) :
    star.cell key i = ((star.col key)[i]?).getD (.s "") := by
  simp [StarFile.cell, List.getD_eq_getElem?_getD]

theorem serializeLine_congr {s1 s2 : StarFile} (i : ℕ)
    (hh : s1.headings = s2.headings)
    (hc : ∀ key, (s1.col key)[i]? = (s2.col key)[i]?) :
    serializeLine s1 i = serializeLine s2 i := by
  unfold serializeLine
  rw [hh]
  congr 1
  apply List.map_congr_left
  intro key _
  rw [StarFile.cell_eq_getElem?, StarFile.cell_eq_getElem?, hc key]

theorem removeIf_get (fs : FS) (a p : String) :
    (if fs.hasFile a then fs.removeFile a else fs) p = if p = a then none else fs p := by
  by_cases hf : fs.hasFile a
  · simp [hf, FS.removeFile]
  · have hnone : fs a = none := by
      simpa [FS.hasFile, Option.isSome_iff_ne_none] using hf
    by_cases hp : p = a <;> simp [hf, hp, hnone]

theorem appendImage_get (fs : FS) (a p : String) (img : EMImage) :
    fs.appendImage a img p = if p = a then some ((fs a).getD [] ++ [img]) else fs p := rfl

theorem rotateStacks_i (E : Ext) (opts : Options) (st : WState) :
    (rotateStacks E opts st).i = st.i := by
  unfold rotateStacks
  split <;> rfl

theorem rotateStacks_star (E : Ext) (opts : Options) (st : WState) :
    (rotateStacks E opts st).star = st.star := by
  unfold rotateStacks
  split <;> rfl

theorem rotateStacks_lines (E : Ext) (opts : Options) (st : WState) :
    (rotateStacks E opts st).lines = st.lines := by
  unfold rotateStacks
  split <;> rfl

theorem rotateStacks_of_ne (E : Ext) (opts : Options) (st : WState)
    (h : ¬ st.i % opts.maxpart = 0) : rotateStacks E opts st = st := by
  unfold rotateStacks
  rw [if_neg h]

theorem rotateStacks_nfile_eq (E : Ext) (opts : Options) (st : WState)
    (h : st.i % opts.maxpart = 0) :
    (rotateStacks E opts st).nfile = st.nfile + 1 := by
  unfold rotateStacks
  rw [if_pos h]

theorem rotateStacks_mrcs_eq (E : Ext) (opts : Options) (st : WState)
    (h : st.i % opts.maxpart = 0) :
    (rotateStacks E opts st).mrcs = some (mrcsPath opts.suffix st.nfile) := by
  unfold rotateStacks
  rw [if_pos h]
  rfl

theorem rotateStacks_morig_eq (E : Ext) (opts : Options) (st : WState)
    (h : st.i % opts.maxpart = 0) :
    (rotateStacks E opts st).mrcsOrig = some (origPath opts.suffix st.nfile) := by
  unfold rotateStacks
  rw [if_pos h]
  rfl

theorem rotateStacks_sp_eq (E : Ext) (opts : Options) (st : WState)
    (h : st.i % opts.maxpart = 0) :
    (rotateStacks E opts st).starpath =
      some (relStarPath E opts.suffix opts.output st.nfile) := by
  unfold rotateStacks
  rw [if_pos h]
  rfl

theorem rotateStacks_fs_eq (E : Ext) (opts : Options) (st : WState)
    (h : st.i % opts.maxpart = 0) (p : String) :
    (rotateStacks E opts st).fs p =
      if p = mrcsPath opts.suffix st.nfile ∨ p = origPath opts.suffix st.nfile then none
      else st.fs p := by
  unfold rotateStacks
  rw [if_pos h]
  simp only [removeIf_get]
  by_cases h1 : p = mrcsPath opts.suffix st.nfile <;>
    by_cases h2 : p = origPath opts.suffix st.nfile <;>
      simp [mrcsPath, origPath] at h1 h2 ⊢ <;> simp [h1, h2]

/-- The initial writer state satisfies the invariant at zero particles. -/
theorem initState_inv (E : Ext) (opts : Options) (star : StarFile) (fs0 : FS) :
    WInv E opts fs0 0 (initState star fs0) := by
  refine ⟨rfl, ?_, ?_, ?_, ?_, ?_, ?_, ?_⟩
  · simp [initState, numStacks_zero]
  · intro h; omega
  · intro h; omega
  · intro h; omega
  · intro k hk1 hk2; rw [numStacks_zero] at hk2; omega
  · intro k hk1 hk2; rw [numStacks_zero] at hk2; omega
  · intro p _; rfl

/-- The stack-rotation block carries the writer invariant at `j` to the
post-rotation stage for particle `j`: it opens the next stack pair (deleting
any pre-existing file) exactly when `j` is a multiple of `maxpart`. -/
theorem rotate_open (E : Ext) (opts : Options) (fs0 : FS) (j : ℕ) (st : WState)
    (hm : 0 < opts.maxpart) (hinv : WInv E opts fs0 j st) :
    WOpen E opts fs0 j (rotateStacks E opts st) := by
  obtain ⟨hi, hnfile, hmrcs, hmorig, hsp, hcount, hcorig, hother⟩ := hinv
  have hqr := Nat.div_add_mod j opts.maxpart
  by_cases hj : j % opts.maxpart = 0
  · -- a new stack pair is opened
    have hj' : st.i % opts.maxpart = 0 := by rw [hi]; exact hj
    obtain ⟨hKo, hKn⟩ := numStacks_mod_eq hm hj
    have hnf : st.nfile = j / opts.maxpart + 1 := by rw [hnfile, hKo]
    have hKn1 : numStacks opts.maxpart (j + 1) - 1 = j / opts.maxpart := by
      rw [hKn]; exact Nat.add_sub_cancel _ _
    have hmj : opts.maxpart * (j / opts.maxpart) = j := by omega
    refine ⟨?_, ?_, ?_, ?_, ?_, ?_, ?_, ?_, ?_, ?_, ?_⟩
    · rw [rotateStacks_i, hi]
    · rw [rotateStacks_nfile_eq E opts st hj', hnf, hKn]
    · rw [rotateStacks_mrcs_eq E opts st hj', hnf, hKn]
    · rw [rotateStacks_morig_eq E opts st hj', hnf, hKn]
    · rw [rotateStacks_sp_eq E opts st hj', hnf, hKn]
    · refine ⟨?_, ?_, ?_⟩
      · rw [hKn1]; omega
      · rw [hKn1]; omega
      · rw [hKn]; exact Nat.succ_le_succ (Nat.zero_le _)
    · intro k hk1 hk2
      rw [hKn] at hk2
      have hne1 : mrcsPath opts.suffix k ≠ mrcsPath opts.suffix st.nfile := by
        intro h
        have := mrcsPath_inj h
        omega
      have hne2 : mrcsPath opts.suffix k ≠ origPath opts.suffix st.nfile :=
        mrcsPath_ne_origPath _ _ _
      obtain ⟨l, hl, hlen⟩ := hcount k hk1 (by rw [hKo]; omega)
      refine ⟨l, ?_, ?_⟩
      · rw [rotateStacks_fs_eq E opts st hj', if_neg (by tauto), hl]
      · have hmulk : opts.maxpart * k = opts.maxpart * (k - 1) + opts.maxpart := by
          have h2 : k - 1 + 1 = k := by omega
          calc opts.maxpart * k = opts.maxpart * (k - 1 + 1) := by rw [h2]
            _ = opts.maxpart * (k - 1) + opts.maxpart := Nat.mul_succ _ _
        have hkle : opts.maxpart * k ≤ opts.maxpart * (j / opts.maxpart) :=
          Nat.mul_le_mul_left _ (by omega)
        omega
    · rw [hKn1, rotateStacks_fs_eq E opts st hj']
      rw [if_pos (by rw [hKn, hnf]; exact Or.inl rfl)]
      simp
      omega
    · intro k hk1 hk2
      rw [hKn] at hk2
      have hne1 : origPath opts.suffix k ≠ mrcsPath opts.suffix st.nfile :=
        Ne.symm (mrcsPath_ne_origPath _ _ _)
      have hne2 : origPath opts.suffix k ≠ origPath opts.suffix st.nfile := by
        intro h
        have := origPath_inj h
        omega
      have hco := hcorig k hk1 (by rw [hKo]; omega)
      have hmulk : opts.maxpart * k = opts.maxpart * (k - 1) + opts.maxpart := by
        have h2 : k - 1 + 1 = k := by omega
        calc opts.maxpart * k = opts.maxpart * (k - 1 + 1) := by rw [h2]
          _ = opts.maxpart * (k - 1) + opts.maxpart := Nat.mul_succ _ _
      have hkle : opts.maxpart * k ≤ opts.maxpart * (j / opts.maxpart) :=
        Nat.mul_le_mul_left _ (by omega)
      constructor
      · intro horg
        obtain ⟨l, hl, hlen⟩ := hco.1 horg
        refine ⟨l, ?_, ?_⟩
        · rw [rotateStacks_fs_eq E opts st hj', if_neg (by tauto), hl]
        · omega
      · intro horg
        rw [rotateStacks_fs_eq E opts st hj', if_neg (by tauto)]
        exact hco.2 horg
    · constructor
      · intro _
        rw [hKn1, rotateStacks_fs_eq E opts st hj']
        rw [if_pos (by rw [hKn, hnf]; exact Or.inr rfl)]
        simp
        omega
      · intro _
        rw [rotateStacks_fs_eq E opts st hj']
        rw [if_pos (by rw [hKn, hnf]; exact Or.inr rfl)]
    · intro p hp
      have hpK := hp (numStacks opts.maxpart (j + 1)) (by rw [hKn]; exact Nat.succ_le_succ (Nat.zero_le _)) le_rfl
      rw [rotateStacks_fs_eq E opts st hj',
        if_neg (by rw [hKn] at hpK; rw [hnf]; tauto)]
      refine hother p ?_
      intro k hk1 hk2
      exact hp k hk1 (by rw [hKo] at hk2; rw [hKn]; omega)
  · -- the current stack continues
    have hj' : ¬ st.i % opts.maxpart = 0 := by rw [hi]; exact hj
    obtain ⟨hKo, hKn⟩ := numStacks_mod_ne hm hj
    have hKK : numStacks opts.maxpart j = numStacks opts.maxpart (j + 1) := by rw [hKo, hKn]
    have hj0 : 0 < j := by
      rcases Nat.eq_zero_or_pos j with h | h
      · subst h; simp at hj
      · exact h
    have hKn1 : numStacks opts.maxpart (j + 1) - 1 = j / opts.maxpart := by
      rw [hKn]; exact Nat.add_sub_cancel _ _
    have hlt : j % opts.maxpart < opts.maxpart := Nat.mod_lt j hm
    rw [rotateStacks_of_ne E opts st hj']
    refine ⟨hi, ?_, ?_, ?_, ?_, ?_, ?_, ?_, ?_, ?_, ?_⟩
    · rw [hnfile, hKK]
    · rw [hmrcs hj0, hKK]
    · rw [hmorig hj0, hKK]
    · rw [hsp hj0, hKK]
    · refine ⟨?_, ?_, ?_⟩
      · rw [hKn1]; omega
      · rw [hKn1]; omega
      · rw [hKn]; exact Nat.succ_le_succ (Nat.zero_le _)
    · intro k hk1 hk2
      obtain ⟨l, hl, hlen⟩ := hcount k hk1 (by rw [hKo]; rw [hKn] at hk2; omega)
      refine ⟨l, hl, ?_⟩
      have hmulk : opts.maxpart * k = opts.maxpart * (k - 1) + opts.maxpart := by
        have h2 : k - 1 + 1 = k := by omega
        calc opts.maxpart * k = opts.maxpart * (k - 1 + 1) := by rw [h2]
          _ = opts.maxpart * (k - 1) + opts.maxpart := Nat.mul_succ _ _
      have hkle : opts.maxpart * k ≤ opts.maxpart * (j / opts.maxpart) :=
        Nat.mul_le_mul_left _ (by rw [hKn] at hk2; omega)
      omega
    · obtain ⟨l, hl, hlen⟩ := hcount (numStacks opts.maxpart (j + 1)) (by rw [hKn]; exact Nat.succ_le_succ (Nat.zero_le _))
        (by rw [hKo, hKn])
      rw [hKn1] at hlen
      rw [hl, hKn1]
      simp only [Option.getD_some]
      omega
    · intro k hk1 hk2
      have hco := hcorig k hk1 (by rw [hKo]; rw [hKn] at hk2; omega)
      have hmulk : opts.maxpart * k = opts.maxpart * (k - 1) + opts.maxpart := by
        have h2 : k - 1 + 1 = k := by omega
        calc opts.maxpart * k = opts.maxpart * (k - 1 + 1) := by rw [h2]
          _ = opts.maxpart * (k - 1) + opts.maxpart := Nat.mul_succ _ _
      have hkle : opts.maxpart * k ≤ opts.maxpart * (j / opts.maxpart) :=
        Nat.mul_le_mul_left _ (by rw [hKn] at hk2; omega)
      constructor
      · intro horg
        obtain ⟨l, hl, hlen⟩ := hco.1 horg
        exact ⟨l, hl, by omega⟩
      · exact hco.2
    · have hco := hcorig (numStacks opts.maxpart (j + 1)) (by rw [hKn]; exact Nat.succ_le_succ (Nat.zero_le _))
        (by rw [hKo, hKn])
      constructor
      · intro horg
        obtain ⟨l, hl, hlen⟩ := hco.1 horg
        rw [hKn1] at hlen
        rw [hl, hKn1]
        simp only [Option.getD_some]
        omega
      · exact hco.2
    · intro p hp
      refine hother p ?_
      intro k hk1 hk2
      exact hp k hk1 (by rw [hKo] at hk2; rw [hKn]; omega)

/-- A successful iteration of the output loop: when the incoming result
carries the expected record index, the step succeeds, preserves the writer
invariant, appends to the current stack pair, and performs exactly the
expected image-name rewrite, origin write-back and line emission. -/
theorem writeStep_ok (E : Ext) (opts : Options) (fs0 : FS) (j : ℕ) (st : WState) (r : Result)
    (hm : 0 < opts.maxpart) (hinv : WInv E opts fs0 j st) (hr : r.meta.i = j) :
    ∃ st', writeStep E opts st r = .ok st' ∧ WInv E opts fs0 (j + 1) st' ∧
      st'.star = r.meta.update (st.star.set "rlnImageName" j
        (.s (fmt6 (j % opts.maxpart + 1) ++ "@"
          ++ relStarPath E opts.suffix opts.output (numStacks opts.maxpart (j + 1))))) ∧
      st'.lines = st.lines ++ [serializeLine st'.star j] := by
  obtain ⟨hi, hnfile, hmrcs, hmorig, hsp, harith, hfull, hcur, hofull, hocur, hother⟩ :=
    rotate_open E opts fs0 j st hm hinv
  have hRstar : (rotateStacks E opts st).star = st.star := rotateStacks_star E opts st
  have hRlines : (rotateStacks E opts st).lines = st.lines := rotateStacks_lines E opts st
  have hP : (rotateStacks E opts st).mrcs.getD "" =
      mrcsPath opts.suffix (numStacks opts.maxpart (j + 1)) := by rw [hmrcs]; rfl
  have hO : (rotateStacks E opts st).mrcsOrig.getD "" =
      origPath opts.suffix (numStacks opts.maxpart (j + 1)) := by rw [hmorig]; rfl
  have hS : (rotateStacks E opts st).starpath.getD "" =
      relStarPath E opts.suffix opts.output (numStacks opts.maxpart (j + 1)) := by
    rw [hsp]; rfl
  have hcond : r.meta.i = (rotateStacks E opts st).i := by rw [hi]; exact hr
  have hPneO : mrcsPath opts.suffix (numStacks opts.maxpart (j + 1)) ≠
      origPath opts.suffix (numStacks opts.maxpart (j + 1)) :=
    mrcsPath_ne_origPath _ _ _
  unfold writeStep
  rw [if_pos hcond, hP, hO, hS, hRstar, hRlines, hi]
  have hfs3 : ∀ p, (if opts.original = true then
        ((rotateStacks E opts st).fs.appendImage
          (mrcsPath opts.suffix (numStacks opts.maxpart (j + 1)))
          r.ptcl_norm_sub).appendImage
          (origPath opts.suffix (numStacks opts.maxpart (j + 1))) r.ptcl
      else (rotateStacks E opts st).fs.appendImage
        (mrcsPath opts.suffix (numStacks opts.maxpart (j + 1))) r.ptcl_norm_sub) p =
      (if p = origPath opts.suffix (numStacks opts.maxpart (j + 1)) ∧ opts.original = true then
        some (((rotateStacks E opts st).fs p).getD [] ++ [r.ptcl])
      else if p = mrcsPath opts.suffix (numStacks opts.maxpart (j + 1)) then
        some (((rotateStacks E opts st).fs p).getD [] ++ [r.ptcl_norm_sub])
      else (rotateStacks E opts st).fs p) := by
    intro p
    by_cases hp2 : p = origPath opts.suffix (numStacks opts.maxpart (j + 1))
    · by_cases hp1 : p = mrcsPath opts.suffix (numStacks opts.maxpart (j + 1))
      · exact absurd (hp1.symm.trans hp2) hPneO
      · subst hp2
        by_cases horg : opts.original = true <;>
          simp [horg, appendImage_get, Ne.symm hPneO]
    · by_cases hp1 : p = mrcsPath opts.suffix (numStacks opts.maxpart (j + 1))
      · subst hp1
        by_cases horg : opts.original = true <;>
          simp [horg, appendImage_get, hp2, hPneO]
      · by_cases horg : opts.original = true <;>
          simp [horg, appendImage_get, hp1, hp2]
  refine ⟨_, rfl, ?_, by dsimp only, by dsimp only⟩
  refine ⟨by dsimp only, by dsimp only; exact hnfile, fun _ => by dsimp only; exact hmrcs,
    fun _ => by dsimp only; exact hmorig, fun _ => by dsimp only; exact hsp, ?_, ?_, ?_⟩
  · -- stack counts at j + 1
    intro k hk1 hk2
    dsimp only
    rw [hfs3 (mrcsPath opts.suffix k)]
    by_cases hk : k = numStacks opts.maxpart (j + 1)
    · subst hk
      rw [if_neg (by simp [hPneO]), if_pos rfl]
      refine ⟨_, rfl, ?_⟩
      rw [List.length_append, hcur]
      simp only [List.length_singleton]
      omega
    · have hklt : k < numStacks opts.maxpart (j + 1) := by omega
      have hne1 : mrcsPath opts.suffix k ≠
          mrcsPath opts.suffix (numStacks opts.maxpart (j + 1)) := fun h => hk (mrcsPath_inj h)
      have hne2 : mrcsPath opts.suffix k ≠
          origPath opts.suffix (numStacks opts.maxpart (j + 1)) := mrcsPath_ne_origPath _ _ _
      rw [if_neg (by simp [hne2]), if_neg hne1]
      obtain ⟨l, hl, hlen⟩ := hfull k hk1 hklt
      refine ⟨l, hl, ?_⟩
      have hmulk : opts.maxpart * k = opts.maxpart * (k - 1) + opts.maxpart := by
        have h2 : k - 1 + 1 = k := by omega
        calc opts.maxpart * k = opts.maxpart * (k - 1 + 1) := by rw [h2]
          _ = opts.maxpart * (k - 1) + opts.maxpart := Nat.mul_succ _ _
      have hkle : opts.maxpart * k ≤ opts.maxpart * (numStacks opts.maxpart (j + 1) - 1) :=
        Nat.mul_le_mul_left _ (by omega)
      omega
  · -- original-stack counts at j + 1
    intro k hk1 hk2
    dsimp only
    by_cases hk : k = numStacks opts.maxpart (j + 1)
    · subst hk
      constructor
      · intro horg
        rw [hfs3 (origPath opts.suffix (numStacks opts.maxpart (j + 1))),
          if_pos ⟨rfl, horg⟩]
        refine ⟨_, rfl, ?_⟩
        rw [List.length_append, hocur.1 horg]
        simp only [List.length_singleton]
        omega
      · intro horg
        rw [hfs3 (origPath opts.suffix (numStacks opts.maxpart (j + 1))),
          if_neg (by simp [horg]), if_neg (Ne.symm hPneO)]
        exact hocur.2 horg
    · have hklt : k < numStacks opts.maxpart (j + 1) := by omega
      have hne1 : origPath opts.suffix k ≠
          mrcsPath opts.suffix (numStacks opts.maxpart (j + 1)) :=
        Ne.symm (mrcsPath_ne_origPath _ _ _)
      have hne2 : origPath opts.suffix k ≠
          origPath opts.suffix (numStacks opts.maxpart (j + 1)) := fun h => hk (origPath_inj h)
      have hval : ∀ v, (rotateStacks E opts st).fs (origPath opts.suffix k) = v →
          (if origPath opts.suffix k = origPath opts.suffix (numStacks opts.maxpart (j + 1)) ∧
              opts.original = true then
            some (((rotateStacks E opts st).fs (origPath opts.suffix k)).getD [] ++ [r.ptcl])
          else if origPath opts.suffix k =
              mrcsPath opts.suffix (numStacks opts.maxpart (j + 1)) then
            some (((rotateStacks E opts st).fs (origPath opts.suffix k)).getD []
              ++ [r.ptcl_norm_sub])
          else (rotateStacks E opts st).fs (origPath opts.suffix k)) = v := by
        intro v hv
        rw [if_neg (by simp [hne2]), if_neg hne1, hv]
      have hco := hofull k hk1 hklt
      have hmulk : opts.maxpart * k = opts.maxpart * (k - 1) + opts.maxpart := by
        have h2 : k - 1 + 1 = k := by omega
        calc opts.maxpart * k = opts.maxpart * (k - 1 + 1) := by rw [h2]
          _ = opts.maxpart * (k - 1) + opts.maxpart := Nat.mul_succ _ _
      have hkle : opts.maxpart * k ≤ opts.maxpart * (numStacks opts.maxpart (j + 1) - 1) :=
        Nat.mul_le_mul_left _ (by omega)
      constructor
      · intro horg
        obtain ⟨l, hl, hlen⟩ := hco.1 horg
        rw [hfs3 (origPath opts.suffix k)]
        exact ⟨l, hval _ hl, by omega⟩
      · intro horg
        rw [hfs3 (origPath opts.suffix k)]
        exact hval _ (hco.2 horg)
  · -- untouched paths
    intro p hp
    dsimp only
    have hpK := hp (numStacks opts.maxpart (j + 1)) harith.2.2 le_rfl
    rw [hfs3 p, if_neg (by simp [hpK.2]), if_neg hpK.1]
    exact hother p hp

theorem StarFile.col_set_length (star : StarFile) (key : String) (i : ℕ) (v : StarVal)
    (key' : String) : ((star.set key i v).col key').length = (star.col key').length := by
  by_cases h : key' = key
  · subst h
    rw [StarFile.col_set_self, List.length_set]
  · rw [StarFile.col_set_ne _ _ _ h]

theorem StarFile.col_set_getElem_ne (star : StarFile) (key : String) (i : ℕ) (v : StarVal)
    (key' : String) (idx : ℕ) (h : idx ≠ i) :
    ((star.set key i v).col key')[idx]? = (star.col key')[idx]? := by
  by_cases hk : key' = key
  · subst hk
    rw [StarFile.col_set_self, List.getElem?_set_ne (Ne.symm h)]
  · rw [StarFile.col_set_ne _ _ _ hk]

theorem update_headings (m : MetaData) (star : StarFile) :
    (m.update star).headings = star.headings := rfl

theorem update_col_length (m : MetaData) (star : StarFile) (key' : String) :
    ((m.update star).col key').length = (star.col key').length := by
  unfold MetaData.update
  rw [StarFile.col_set_length, StarFile.col_set_length]

theorem update_col_ne (m : MetaData) (star : StarFile) (key' : String)
    (h1 : key' ≠ "rlnOriginX") (h2 : key' ≠ "rlnOriginY") :
    (m.update star).col key' = star.col key' := by
  unfold MetaData.update
  rw [StarFile.col_set_ne _ _ _ h2, StarFile.col_set_ne _ _ _ h1]

theorem update_col_getElem_ne (m : MetaData) (star : StarFile) (key' : String) (idx : ℕ)
    (h : idx ≠ m.i) :
    ((m.update star).col key')[idx]? = (star.col key')[idx]? := by
  unfold MetaData.update
  rw [StarFile.col_set_getElem_ne _ _ _ _ _ _ h, StarFile.col_set_getElem_ne _ _ _ _ _ _ h]

/-- After the image-name rewrite and the origin write-back of one loop
iteration, row `j` holds the new image name and the (possibly recentered)
origins of the incoming result. -/
theorem update_set_cells (m : MetaData) (star : StarFile) (v : StarVal) (j : ℕ)
    (hmi : m.i = j)
    (hIN : j < (star.col "rlnImageName").length)
    (hOX : j < (star.col "rlnOriginX").length)
    (hOY : j < (star.col "rlnOriginY").length) :
    ((m.update (star.set "rlnImageName" j v)).col "rlnImageName")[j]? = some v ∧
    ((m.update (star.set "rlnImageName" j v)).col "rlnOriginX")[j]? = some (.q m.x_origin) ∧
    ((m.update (star.set "rlnImageName" j v)).col "rlnOriginY")[j]? = some (.q m.y_origin) := by
  unfold MetaData.update
  rw [hmi]
  refine ⟨?_, ?_, ?_⟩
  · rw [StarFile.col_set_ne _ _ _ (by decide), StarFile.col_set_ne _ _ _ (by decide),
      StarFile.col_set_self, List.getElem?_set_self hIN]
  · rw [StarFile.col_set_ne _ _ _ (by decide), StarFile.col_set_self,
      List.getElem?_set_self (by rw [StarFile.col_set_length]; exact hOX)]
  · rw [StarFile.col_set_self,
      List.getElem?_set_self (by rw [StarFile.col_set_length, StarFile.col_set_length]; exact hOY)]

/-- The output loop over results whose record indices continue the running
count: it succeeds, preserves the writer invariant, touches only the image
name and origin columns and only inside the processed row range, emits one
serialized line per particle in input order, and rewrites each processed
row's image name to the new in-stack reference and its origins to the
result's origins. -/
theorem writeLoop_spec (E : Ext) (opts : Options) (fs0 : FS) (hm : 0 < opts.maxpart) :
    ∀ (rs : List Result) (j : ℕ) (st : WState),
      WInv E opts fs0 j st →
      (∀ k (h : k < rs.length), (rs.get ⟨k, h⟩).meta.i = j + k) →
      j + rs.length ≤ (st.star.col "rlnImageName").length →
      j + rs.length ≤ (st.star.col "rlnOriginX").length →
      j + rs.length ≤ (st.star.col "rlnOriginY").length →
      ∃ st', writeLoop E opts rs st = .ok st' ∧ WInv E opts fs0 (j + rs.length) st' ∧
        st'.star.headings = st.star.headings ∧
        (∀ key, key ≠ "rlnImageName" → key ≠ "rlnOriginX" → key ≠ "rlnOriginY" →
          st'.star.col key = st.star.col key) ∧
        (∀ key, (st'.star.col key).length = (st.star.col key).length) ∧
        (∀ key idx, idx < j ∨ j + rs.length ≤ idx →
          (st'.star.col key)[idx]? = (st.star.col key)[idx]?) ∧
        st'.lines.length = st.lines.length + rs.length ∧
        (∀ n, n < st.lines.length → st'.lines[n]? = st.lines[n]?) ∧
        (∀ k, k < rs.length → st'.lines[st.lines.length + k]? =
          some (serializeLine st'.star (j + k))) ∧
        (∀ k, k < rs.length → (st'.star.col "rlnImageName")[j + k]? =
          some (.s (fmt6 ((j + k) % opts.maxpart + 1) ++ "@"
            ++ relStarPath E opts.suffix opts.output (numStacks opts.maxpart (j + k + 1))))) ∧
        (∀ k (h : k < rs.length),
          (st'.star.col "rlnOriginX")[j + k]? = some (.q ((rs.get ⟨k, h⟩).meta.x_origin)) ∧
          (st'.star.col "rlnOriginY")[j + k]? = some (.q ((rs.get ⟨k, h⟩).meta.y_origin))) := by
  intro rs
  induction rs with
  | nil =>
    intro j st hinv _ _ _ _
    refine ⟨st, rfl, by simpa using hinv, rfl, fun _ _ _ _ => rfl, fun _ => rfl, ?_,
      by simp, fun _ _ => rfl, by simp, by simp, by simp⟩
    intro key idx _
    rfl
  | cons r rs ih =>
    intro j st hinv horder hlI hlX hlY
    simp only [List.length_cons] at hlI hlX hlY
    have hr0 : r.meta.i = j := by
      have h := horder 0 (by simp)
      simpa using h
    obtain ⟨st₁, hstep, hinv₁, hstar₁, hlines₁⟩ := writeStep_ok E opts fs0 j st r hm hinv hr0
    have hh₁ : st₁.star.headings = st.star.headings := by rw [hstar₁]; rfl
    have hlen₁ : ∀ key, (st₁.star.col key).length = (st.star.col key).length := by
      intro key
      rw [hstar₁, update_col_length, StarFile.col_set_length]
    have hne₁ : ∀ key, key ≠ "rlnImageName" → key ≠ "rlnOriginX" → key ≠ "rlnOriginY" →
        st₁.star.col key = st.star.col key := by
      intro key h1 h2 h3
      rw [hstar₁, update_col_ne _ _ _ h2 h3, StarFile.col_set_ne _ _ _ h1]
    have hrow₁ : ∀ key idx, idx ≠ j → (st₁.star.col key)[idx]? = (st.star.col key)[idx]? := by
      intro key idx hidx
      rw [hstar₁, update_col_getElem_ne _ _ _ _ (by rw [hr0]; exact hidx),
        StarFile.col_set_getElem_ne _ _ _ _ _ _ hidx]
    have hcells := update_set_cells r.meta st.star
      (.s (fmt6 (j % opts.maxpart + 1) ++ "@"
        ++ relStarPath E opts.suffix opts.output (numStacks opts.maxpart (j + 1)))) j hr0
      (by omega) (by omega) (by omega)
    have hcIN : (st₁.star.col "rlnImageName")[j]? =
        some (.s (fmt6 (j % opts.maxpart + 1) ++ "@"
          ++ relStarPath E opts.suffix opts.output (numStacks opts.maxpart (j + 1)))) := by
      rw [hstar₁]; exact hcells.1
    have hcOX : (st₁.star.col "rlnOriginX")[j]? = some (.q r.meta.x_origin) := by
      rw [hstar₁]; exact hcells.2.1
    have hcOY : (st₁.star.col "rlnOriginY")[j]? = some (.q r.meta.y_origin) := by
      rw [hstar₁]; exact hcells.2.2
    have horder' : ∀ k (h : k < rs.length), (rs.get ⟨k, h⟩).meta.i = (j + 1) + k := by
      intro k h
      have h2 := horder (k + 1) (by simpa using Nat.succ_lt_succ h)
      simp only [List.get_cons_succ] at h2
      rw [h2]
      omega
    obtain ⟨st', hloop, hinv', hh', hne', hlen', hrow', hlenL', hold', hnew', hIN', hOXY'⟩ :=
      ih (j + 1) st₁ hinv₁ horder' (by rw [hlen₁]; omega) (by rw [hlen₁]; omega)
        (by rw [hlen₁]; omega)
    have hL₁ : st₁.lines.length = st.lines.length + 1 := by
      rw [hlines₁]
      simp
    refine ⟨st', ?_, ?_, ?_, ?_, ?_, ?_, ?_, ?_, ?_, ?_, ?_⟩
    · show writeLoop E opts (r :: rs) st = .ok st'
      unfold writeLoop
      rw [hstep]
      exact hloop
    · have h2 : j + (r :: rs).length = (j + 1) + rs.length := by simp; omega
      rw [h2]
      exact hinv'
    · rw [hh', hh₁]
    · intro key h1 h2 h3
      rw [hne' key h1 h2 h3, hne₁ key h1 h2 h3]
    · intro key
      rw [hlen' key, hlen₁ key]
    · intro key idx hcond
      simp only [List.length_cons] at hcond
      have h1 : idx < j + 1 ∨ (j + 1) + rs.length ≤ idx := by omega
      rw [hrow' key idx h1, hrow₁ key idx (by omega)]
    · simp only [List.length_cons]
      rw [hlenL', hL₁]
      omega
    · intro n hn
      rw [hold' n (by omega), hlines₁, List.getElem?_append]
      rw [if_pos hn]
    · intro k hk
      simp only [List.length_cons] at hk
      match k with
      | 0 =>
        simp only [Nat.add_zero]
        have hsl : serializeLine st'.star j = serializeLine st₁.star j := by
          refine serializeLine_congr j hh' ?_
          intro key
          exact hrow' key j (Or.inl (by omega))
        rw [hsl, hold' st.lines.length (by omega), hlines₁,
          List.getElem?_append_right le_rfl]
        simp
      | k' + 1 =>
        have h2 : st.lines.length + (k' + 1) = st₁.lines.length + k' := by omega
        have h3 : j + (k' + 1) = (j + 1) + k' := by omega
        rw [h2, h3]
        exact hnew' k' (by omega)
    · intro k hk
      simp only [List.length_cons] at hk
      match k with
      | 0 =>
        simp only [Nat.add_zero]
        rw [hrow' _ j (Or.inl (by omega)), hcIN]
      | k' + 1 =>
        have h2 : j + (k' + 1) = (j + 1) + k' := by omega
        rw [h2]
        exact hIN' k' (by omega)
    · intro k hk
      simp only [List.length_cons] at hk
      match k with
      | 0 =>
        simp only [Nat.add_zero]
        constructor
        · rw [hrow' _ j (Or.inl (by omega)), hcOX]
          simp
        · rw [hrow' _ j (Or.inl (by omega)), hcOY]
          simp
      | k' + 1 =>
        have h2 : j + (k' + 1) = (j + 1) + k' := by omega
        rw [h2]
        have h4 := hOXY' k' (by omega)
        simp only [List.get_cons_succ]
        exact h4

/-- A parse failure in the particles generator aborts the run with an input
error. -/
theorem particlesFrom_err (E : Ext) (star : StarFile) (i fuel : ℕ)
    (h : particlesStep E star i = none) :
    particlesFrom E star i (fuel + 1) = .error .InputFormatError := by
  unfold particlesFrom
  rw [h]

/-- The particles produced by the generator from row `i` are, in order, the
images and metadata of rows `i`, `i+1`, ...; in particular the metadata of
the k-th produced particle is built from table row `i + k`. -/
theorem particlesFrom_spec (E : Ext) (star : StarFile) :
    ∀ (fuel i : ℕ) (ps : List (EMImage × MetaData)),
      particlesFrom E star i fuel = .ok ps →
      ps.length = fuel ∧
      ∀ k (h : k < ps.length), (ps.get ⟨k, h⟩).2 = MetaData.init star (i + k) := by
  intro fuel
  induction fuel with
  | zero =>
    intro i ps h
    unfold particlesFrom at h
    cases h
    exact ⟨rfl, fun k h => absurd h (by simp)⟩
  | succ fuel ih =>
    intro i ps h
    unfold particlesFrom at h
    cases hstep : particlesStep E star i with
    | none => rw [hstep] at h; cases h
    | some p =>
      rw [hstep] at h
      cases hrest : particlesFrom E star (i + 1) fuel with
      | error e => rw [hrest] at h; cases h
      | ok rest =>
        rw [hrest] at h
        obtain ⟨hlen, hmeta⟩ := ih (i + 1) rest hrest
        have hp : p.2 = MetaData.init star i := by
          unfold particlesStep at hstep
          cases hsplit : pySplit (star.cell "rlnImageName" i).pyStr '@' with
          | nil => rw [hsplit] at hstep; cases hstep
          | cons t parts =>
            cases parts with
            | nil => rw [hsplit] at hstep; cases hstep
            | cons q rest' =>
              rw [hsplit] at hstep
              have hstep' : (match pyInt? t with
                  | some n => some (E.load q (n - 1), MetaData.init star i)
                  | none => none) = some p := hstep
              cases hint : pyInt? t with
              | none => rw [hint] at hstep'; cases hstep'
              | some n =>
                rw [hint] at hstep'
                cases hstep'
                rfl
        have h2 : (Except.ok (p :: rest) : Except RunErr (List (EMImage × MetaData))) =
            .ok ps := h
        have hps : ps = p :: rest := by cases h2; rfl
        subst hps
        refine ⟨by simp [hlen], ?_⟩
        intro k hk
        match k with
        | 0 => simpa using hp
        | k' + 1 =>
          have := hmeta k' (by simpa using Nat.lt_of_succ_lt_succ hk)
          simp only [List.get_cons_succ]
          rw [this]
          congr 1
          omega

/-- `subtract` as an explicit computation: the subtraction-or-error step
followed by the pure construction of the result, with the recentering
update applied to the metadata. -/
theorem subtract_eq (E : Ext) (p : EMImage × MetaData) (dens sub_dens : EMVolume)
    (recenter : Option Vec3) (no_frc : Bool) (lo hi : ℚ) :
    subtract E p dens sub_dens recenter no_frc lo hi =
      (if no_frc = true then p.1.subI (make_proj E sub_dens p.2)
        else mathSubOptimal E p.1 (make_proj E dens p.2) (make_proj E sub_dens p.2) lo hi).map
        fun ptcl_sub =>
          { ptcl := p.1
            meta := match recenter with
              | none => p.2
              | some v =>
                let t := Transform.init.set_rotation ⟨p.2.phi, p.2.theta, p.2.psi⟩
                let shift := Transform.transform E.rotAct t v
                { p.2 with x_origin := p.2.x_origin + shift.x
                           y_origin := p.2.y_origin + shift.y }
            ctfproj := make_proj E dens p.2
            ctfproj_sub := make_proj E sub_dens p.2
            ptcl_sub := ptcl_sub
            ptcl_norm_sub := E.normalizeP ptcl_sub } := by
  unfold subtract
  by_cases hnf : no_frc = true
  · simp only [hnf, if_true]
    cases hsub : p.1.subI (make_proj E sub_dens p.2) with
    | error e => rfl
    | ok img => rfl
  · simp only [hnf, if_false]
    cases hsub : mathSubOptimal E p.1 (make_proj E dens p.2) (make_proj E sub_dens p.2) lo hi with
    | error e => rfl
    | ok img => rfl

/-- The record index of a successful subtraction result is the input
record's index; with recentering off the metadata is returned unchanged, and
with recentering on only the origins change, by the x/y components of the
rotated recentering vector. -/
theorem subtract_ok_meta (E : Ext) (p : EMImage × MetaData) (dens sub_dens : EMVolume)
    (recenter : Option Vec3) (no_frc : Bool) (lo hi : ℚ) (r : Result)
    (h : subtract E p dens sub_dens recenter no_frc lo hi = .ok r) :
    r.meta.i = p.2.i ∧
    (recenter = none → r.meta = p.2) ∧
    (∀ v, recenter = some v →
      r.meta.x_origin = p.2.x_origin + (E.rotAct ⟨p.2.phi, p.2.theta, p.2.psi⟩ v).x ∧
      r.meta.y_origin = p.2.y_origin + (E.rotAct ⟨p.2.phi, p.2.theta, p.2.psi⟩ v).y ∧
      r.meta.phi = p.2.phi ∧ r.meta.theta = p.2.theta ∧ r.meta.psi = p.2.psi ∧
      r.meta.i = p.2.i) := by
  cases recenter with
  | none =>
    rw [subtract_eq] at h
    cases hx : (if no_frc = true then p.1.subI (make_proj E sub_dens p.2)
        else mathSubOptimal E p.1 (make_proj E dens p.2) (make_proj E sub_dens p.2) lo hi) with
    | error e => rw [hx] at h; simp [Except.map] at h
    | ok img =>
      rw [hx] at h
      simp only [Except.map, Except.ok.injEq] at h
      subst h
      exact ⟨rfl, fun _ => rfl, fun v hv => Option.noConfusion hv⟩
  | some v =>
    rw [subtract_eq] at h
    cases hx : (if no_frc = true then p.1.subI (make_proj E sub_dens p.2)
        else mathSubOptimal E p.1 (make_proj E dens p.2) (make_proj E sub_dens p.2) lo hi) with
    | error e => rw [hx] at h; simp [Except.map] at h
    | ok img =>
      rw [hx] at h
      simp only [Except.map, Except.ok.injEq] at h
      subst h
      refine ⟨rfl, fun hv => Option.noConfusion hv, ?_⟩
      intro w hw
      injection hw with hw'
      subst hw'
      refine ⟨?_, ?_, rfl, rfl, rfl, rfl⟩
      · show p.2.x_origin + _ = _
        simp [Transform.transform, Transform.init, Transform.set_rotation]
      · show p.2.y_origin + _ = _
        simp [Transform.transform, Transform.init, Transform.set_rotation]

/-- Element-by-element characterization of a successful `mapM` over the
run's error monad. -/
theorem mapM_ok_spec {α β : Type} (f : α → Except RunErr β) :
    ∀ (xs : List α) (ys : List β), xs.mapM f = .ok ys →
      ys.length = xs.length ∧
      ∀ k (h : k < xs.length) (h' : k < ys.length),
        f (xs.get ⟨k, h⟩) = .ok (ys.get ⟨k, h'⟩) := by
  intro xs
  induction xs with
  | nil =>
    intro ys h
    simp only [List.mapM_nil] at h
    have h2 : (Except.ok ([] : List β) : Except RunErr (List β)) = .ok ys := h
    have : ys = [] := by cases h2; rfl
    subst this
    exact ⟨rfl, fun k h => absurd h (by simp)⟩
  | cons x xs ih =>
    intro ys h
    rw [List.mapM_cons] at h
    cases hx : f x with
    | error e => rw [hx] at h; cases h
    | ok y =>
      rw [hx] at h
      cases hrest : xs.mapM f with
      | error e =>
        rw [hrest] at h
        cases h
      | ok ys' =>
        rw [hrest] at h
        have h2 : (Except.ok (y :: ys') : Except RunErr (List β)) = .ok ys := h
        have hys : ys = y :: ys' := by cases h2; rfl
        subst hys
        obtain ⟨hlen, helem⟩ := ih ys' hrest
        refine ⟨by simp [hlen], ?_⟩
        intro k hk hk'
        match k with
        | 0 => simpa using hx
        | k' + 1 =>
          have := helem k' (by simpa using Nat.lt_of_succ_lt_succ hk)
            (by simpa using Nat.lt_of_succ_lt_succ hk')
          simpa using this

theorem mainRecenter_false (pc : EMVolume → Vec3) (dens sub_dens : EMVolume) :
    mainRecenter false pc dens sub_dens = none := rfl

theorem mainRecenter_true (pc : EMVolume → Vec3) (dens sub_dens : EMVolume) :
    mainRecenter true pc dens sub_dens = some (pc dens - pc (dens.subV sub_dens)) := rfl

/-- The results of a successful run: one per table row, in order; the k-th
result's metadata is row k's metadata, with the origins shifted by the
rotated recentering vector when recentering is on. -/
theorem resultsFor_spec (E : Ext) (opts : Options) (star : StarFile) (dens sub_dens : EMVolume)
    (rs : List Result) (h : resultsFor E opts star dens sub_dens = .ok rs) :
    rs.length = (star.col "rlnImageName").length ∧
    ∀ k (h1 : k < rs.length),
      (rs.get ⟨k, h1⟩).meta.i = k ∧
      (opts.recenter = false → (rs.get ⟨k, h1⟩).meta = MetaData.init star k) ∧
      (opts.recenter = true →
        (rs.get ⟨k, h1⟩).meta.x_origin = (MetaData.init star k).x_origin +
          (E.rotAct ⟨(MetaData.init star k).phi, (MetaData.init star k).theta,
              (MetaData.init star k).psi⟩
            (E.phase_cog dens - E.phase_cog (dens.subV sub_dens))).x ∧
        (rs.get ⟨k, h1⟩).meta.y_origin = (MetaData.init star k).y_origin +
          (E.rotAct ⟨(MetaData.init star k).phi, (MetaData.init star k).theta,
              (MetaData.init star k).psi⟩
            (E.phase_cog dens - E.phase_cog (dens.subV sub_dens))).y) := by
  unfold resultsFor at h
  replace h : (do
      let ps ← particlesFrom E star 0 ((star.col "rlnImageName").length)
      ps.mapM fun p => subtract E p dens sub_dens
        (mainRecenter opts.recenter E.phase_cog dens sub_dens)
        opts.no_frc opts.low_cutoff opts.high_cutoff) = .ok rs := h
  cases hps : particlesFrom E star 0 ((star.col "rlnImageName").length) with
  | error e =>
    rw [hps] at h
    cases h
  | ok ps =>
    rw [hps] at h
    have h' : ps.mapM (fun p => subtract E p dens sub_dens
        (mainRecenter opts.recenter E.phase_cog dens sub_dens)
        opts.no_frc opts.low_cutoff opts.high_cutoff) = .ok rs := h
    obtain ⟨hlenp, hmetap⟩ := particlesFrom_spec E star _ 0 ps hps
    obtain ⟨hlenr, helem⟩ := mapM_ok_spec _ ps rs h'
    have hlen : rs.length = (star.col "rlnImageName").length := by rw [hlenr, hlenp]
    refine ⟨hlen, ?_⟩
    intro k h1
    have hkp : k < ps.length := by omega
    have hsub := helem k hkp h1
    have hpk : (ps.get ⟨k, hkp⟩).2 = MetaData.init star k := by
      have := hmetap k hkp
      simpa using this
    obtain ⟨hmi, hnone, hsome⟩ := subtract_ok_meta E _ dens sub_dens _ _ _ _ _ hsub
    rw [hpk] at hmi hnone hsome
    refine ⟨by rw [hmi]; rfl, ?_, ?_⟩
    · intro hrec
      exact hnone (by rw [hrec, mainRecenter_false])
    · intro hrec
      have hv := hsome (E.phase_cog dens - E.phase_cog (dens.subV sub_dens))
        (by rw [hrec, mainRecenter_true])
      exact ⟨hv.1, hv.2.1⟩

/-- A successful run writes one line per table row, leaves all columns other
than the image name and the origins equal to the input, preserves the
heading order, satisfies the writer invariant at `N` particles, and rewrites
each row's image name and origins as the source does. -/
theorem mainRun_ok_spec (E : Ext) (opts0 : Options) (star : StarFile) (dens sub_dens : EMVolume)
    (fs0 : FS) (rs : List Result)
    (hm : 0 < opts0.maxpart)
    (hrs : resultsFor E (normOpts opts0) star dens sub_dens = .ok rs)
    (hOX : (star.col "rlnImageName").length ≤ (star.col "rlnOriginX").length)
    (hOY : (star.col "rlnImageName").length ≤ (star.col "rlnOriginY").length) :
    ∃ stf, mainRun E opts0 star dens sub_dens fs0 = .ok stf ∧
      WInv E (normOpts opts0) fs0 rs.length stf ∧
      stf.star.headings = star.headings ∧
      (∀ key, key ≠ "rlnImageName" → key ≠ "rlnOriginX" → key ≠ "rlnOriginY" →
        stf.star.col key = star.col key) ∧
      (∀ key, (stf.star.col key).length = (star.col key).length) ∧
      (∀ key idx, rs.length ≤ idx → (stf.star.col key)[idx]? = (star.col key)[idx]?) ∧
      stf.lines.length = rs.length ∧
      (∀ k, k < rs.length → stf.lines[k]? = some (serializeLine stf.star k)) ∧
      (∀ k, k < rs.length → (stf.star.col "rlnImageName")[k]? =
        some (.s (fmt6 (k % opts0.maxpart + 1) ++ "@"
          ++ relStarPath E (normOpts opts0).suffix (normOpts opts0).output
            (numStacks opts0.maxpart (k + 1))))) ∧
      (∀ k (h : k < rs.length),
        (stf.star.col "rlnOriginX")[k]? = some (.q ((rs.get ⟨k, h⟩).meta.x_origin)) ∧
        (stf.star.col "rlnOriginY")[k]? = some (.q ((rs.get ⟨k, h⟩).meta.y_origin))) := by
  obtain ⟨hlen, hspec⟩ := resultsFor_spec E (normOpts opts0) star dens sub_dens rs hrs
  have horder : ∀ k (h : k < rs.length), (rs.get ⟨k, h⟩).meta.i = 0 + k := by
    intro k h
    rw [(hspec k h).1]
    omega
  obtain ⟨stf, hloop, hinv, hh, hne, hlens, hrows, hlenL, hold, hnew, hIN, hOXY⟩ :=
    writeLoop_spec E (normOpts opts0) fs0 hm rs 0 (initState star fs0)
      (initState_inv E (normOpts opts0) star fs0) horder
      (by show 0 + rs.length ≤ (star.col "rlnImageName").length; omega)
      (by show 0 + rs.length ≤ (star.col "rlnOriginX").length; omega)
      (by show 0 + rs.length ≤ (star.col "rlnOriginY").length; omega)
  refine ⟨stf, ?_, ?_, ?_, ?_, ?_, ?_, ?_, ?_, ?_, ?_⟩
  · unfold mainRun
    show (do
        let rs2 ← resultsFor E (normOpts opts0) star dens sub_dens
        writeLoop E (normOpts opts0) rs2 (initState star fs0)) = Except.ok stf
    rw [hrs]
    exact hloop
  · simpa using hinv
  · exact hh
  · exact hne
  · exact hlens
  · intro key idx hidx
    exact hrows key idx (Or.inr (by omega))
  · rw [hlenL]
    simp [initState]
  · intro k hk
    have h2 := hnew k hk
    simpa [initState] using h2
  · intro k hk
    have h2 := hIN k hk
    simpa [normOpts] using h2
  · intro k hk
    have h2 := hOXY k hk
    simpa using h2

/-- The ordering assertion (source line 109): a result whose record index
differs from the running count makes the step fail. -/
theorem writeStep_err (E : Ext) (opts : Options) (st : WState) (r : Result)
    (h : r.meta.i ≠ st.i) : writeStep E opts st r = .error .AssertionError := by
  unfold writeStep
  rw [if_neg (by rw [rotateStacks_i]; exact h)]

/-- An ordering-assertion failure aborts the whole output loop. -/
theorem writeLoop_err (E : Ext) (opts : Options) (st : WState) (r : Result) (rs : List Result)
    (h : r.meta.i ≠ st.i) : writeLoop E opts (r :: rs) st = .error .AssertionError := by
  unfold writeLoop
  rw [writeStep_err E opts st r h]
  rfl

/-- An error while producing the results aborts `main` with that error. -/
theorem mainRun_err (E : Ext) (opts0 : Options) (star : StarFile) (dens sub_dens : EMVolume)
    (fs0 : FS) (e : RunErr)
    (h : resultsFor E (normOpts opts0) star dens sub_dens = .error e) :
    mainRun E opts0 star dens sub_dens fs0 = .error e := by
  unfold mainRun
  show (do
      let rs ← resultsFor E (normOpts opts0) star dens sub_dens
      writeLoop E (normOpts opts0) rs (initState star fs0)) = Except.error e
  rw [h]
  rfl

/-- An input-parse error in the particles generator aborts `resultsFor`
with that error. -/
theorem resultsFor_err (E : Ext) (opts : Options) (star : StarFile) (dens sub_dens : EMVolume)
    (e : RunErr)
    (h : particlesFrom E star 0 ((star.col "rlnImageName").length) = .error e) :
    resultsFor E opts star dens sub_dens = .error e := by
  unfold resultsFor
  show (do
      let ps ← particlesFrom E star 0 ((star.col "rlnImageName").length)
      ps.mapM fun p => subtract E p dens sub_dens
        (mainRecenter opts.recenter E.phase_cog dens sub_dens)
        opts.no_frc opts.low_cutoff opts.high_cutoff) = Except.error e
  rw [h]
  rfl

/-- The zero-padded index string has width 6, or the digit count when that
exceeds 6. -/
theorem fmt6_length (n : ℕ) : (fmt6 n).length = max 6 (Nat.repr n).length := by
  show (List.replicate (6 - (Nat.repr n).length) '0' ++ (Nat.repr n).data).length = _
  rw [List.length_append, List.length_replicate]
  have : (Nat.repr n).length = (Nat.repr n).data.length := rfl
  omega

/-- A populated cell as an optional list entry. -/
theorem cell_getElem (star : StarFile) (key : String) (k : ℕ)
    (h : k < (star.col key).length) :
    (star.col key)[k]? = some (star.cell key k) := by
  rw [List.getElem?_eq_getElem h, StarFile.cell_eq_getElem?, List.getElem?_eq_getElem h]
  rfl

/-- C4.  Direct-mode correctness: with `no_frc` set and matching pixel
dimensions, the raw subtracted image is exactly the elementwise difference
between the particle image and the sub-map projection, with no scale
factor. -/
theorem c4_direct_mode (E : Ext) (ptcl : EMImage) (meta : MetaData) (dens sub_dens : EMVolume)
    (recenter : Option Vec3) (lo hi : ℚ) (x y : ℕ)
    (hnx : ptcl.nx = (make_proj E sub_dens meta).nx)
    (hny : ptcl.ny = (make_proj E sub_dens meta).ny) :
    (subtract E (ptcl, meta) dens sub_dens recenter true lo hi).map
        (fun r => (r.ptcl_sub.nx, r.ptcl_sub.ny, r.ptcl_sub.px x y)) =
      .ok (ptcl.nx, ptcl.ny, ptcl.px x y - (make_proj E sub_dens meta).px x y) := by
  rw [subtract_eq]
  have hok : (ptcl, meta).1.subI (make_proj E sub_dens (ptcl, meta).2) =
      .ok { nx := ptcl.nx, ny := ptcl.ny,
            px := fun x y => ptcl.px x y - (make_proj E sub_dens meta).px x y } := by
    unfold EMImage.subI
    rw [if_pos ⟨hnx, hny⟩]
  rw [if_pos rfl, hok]
  rfl

/-- C4 witness: a concrete direct-mode subtraction. -/
theorem c4_direct_mode_witness :
    ((⟨2, 2, fun x y => (x : ℚ) + y⟩ : EMImage).nx =
        (make_proj wExt wVol (MetaData.init wStar 0)).nx ∧
      (⟨2, 2, fun x y => (x : ℚ) + y⟩ : EMImage).ny =
        (make_proj wExt wVol (MetaData.init wStar 0)).ny) ∧
    (subtract wExt (⟨2, 2, fun x y => (x : ℚ) + y⟩, MetaData.init wStar 0) wVol wVol none
        true 0 1).map (fun r => (r.ptcl_sub.nx, r.ptcl_sub.ny, r.ptcl_sub.px 0 1)) =
      .ok (2, 2, (0 : ℚ)) := by
  refine ⟨⟨by decide, by decide⟩, ?_⟩
  have h := c4_direct_mode wExt ⟨2, 2, fun x y => (x : ℚ) + y⟩ (MetaData.init wStar 0)
    wVol wVol none 0 1 0 1 (by decide) (by decide)
  rw [h]
  norm_num [make_proj, wExt, wVol]

/-- C7.  Negated-shift projection: `make_proj` projects with a transform
built from the particle's three spider Euler angles and the negated
in-plane origin as the translation, then applies the CTF synthesized from
that particle's CTF parameters. -/
theorem c7_negated_shift_projection (E : Ext) (dens : EMVolume) (meta : MetaData) :
    make_proj E dens meta =
      E.filt_ctf
        (E.project dens
          { rot := some ⟨meta.phi, meta.theta, meta.psi⟩
            trans := ⟨-meta.x_origin, -meta.y_origin, 0⟩ })
        (E.generate_ctf meta.ctf_params) := rfl

/-- C5.  Recentering: the vector is the difference between the whole map's
center of mass and the whole-minus-sub map's center of mass, computed once;
per particle it is rotated through the same spider-angle rotation the
projector uses, and its x/y components are added to the stored origin.
With the flag off the vector is `none`. -/
theorem c5_recenter_vector (E : Ext) (dens sub_dens : EMVolume) :
    mainRecenter true E.phase_cog dens sub_dens =
      some (E.phase_cog dens - E.phase_cog (dens.subV sub_dens)) ∧
    mainRecenter false E.phase_cog dens sub_dens = none ∧
    (∀ (p : EMImage × MetaData) (v : Vec3) (nf : Bool) (lo hi : ℚ) (r : Result),
      subtract E p dens sub_dens (some v) nf lo hi = .ok r →
      r.meta.x_origin = p.2.x_origin + (E.rotAct ⟨p.2.phi, p.2.theta, p.2.psi⟩ v).x ∧
      r.meta.y_origin = p.2.y_origin + (E.rotAct ⟨p.2.phi, p.2.theta, p.2.psi⟩ v).y) ∧
    (∀ (opts : Options) (star : StarFile) (rs : List Result),
      resultsFor E opts star dens sub_dens = .ok rs → opts.recenter = true →
      ∀ k (h : k < rs.length),
        (rs.get ⟨k, h⟩).meta.x_origin = (MetaData.init star k).x_origin +
          (E.rotAct ⟨(MetaData.init star k).phi, (MetaData.init star k).theta,
              (MetaData.init star k).psi⟩
            (E.phase_cog dens - E.phase_cog (dens.subV sub_dens))).x ∧
        (rs.get ⟨k, h⟩).meta.y_origin = (MetaData.init star k).y_origin +
          (E.rotAct ⟨(MetaData.init star k).phi, (MetaData.init star k).theta,
              (MetaData.init star k).psi⟩
            (E.phase_cog dens - E.phase_cog (dens.subV sub_dens))).y) ∧
    (∀ (dens2 : EMVolume) (meta : MetaData),
      make_proj E dens2 meta =
        E.filt_ctf
          (E.project dens2
            ((Transform.init.set_rotation ⟨meta.phi, meta.theta, meta.psi⟩).set_trans
              (-meta.x_origin) (-meta.y_origin)))
          (E.generate_ctf meta.ctf_params)) := by
  refine ⟨rfl, rfl, ?_, ?_, fun _ _ => rfl⟩
  · intro p v nf lo hi r h
    have hs := (subtract_ok_meta E p dens sub_dens (some v) nf lo hi r h).2.2 v rfl
    exact ⟨hs.1, hs.2.1⟩
  · intro opts star rs h hrec k hk
    exact ((resultsFor_spec E opts star dens sub_dens rs h).2 k hk).2.2 hrec

/-- C5 witness: a concrete recentered subtraction. -/
theorem c5_recenter_vector_witness :
    (subtract wExt (⟨2, 2, fun _ _ => 0⟩, MetaData.init wStar 0) wVol wVol
        (some ⟨10, 20, 30⟩) true 0 1 = .ok wC5res) ∧
    wC5res.meta.x_origin = (MetaData.init wStar 0).x_origin +
      (wExt.rotAct ⟨(MetaData.init wStar 0).phi, (MetaData.init wStar 0).theta,
        (MetaData.init wStar 0).psi⟩ ⟨10, 20, 30⟩).x ∧
    wC5res.meta.y_origin = (MetaData.init wStar 0).y_origin +
      (wExt.rotAct ⟨(MetaData.init wStar 0).phi, (MetaData.init wStar 0).theta,
        (MetaData.init wStar 0).psi⟩ ⟨10, 20, 30⟩).y := by
  have hr : subtract wExt (⟨2, 2, fun _ _ => 0⟩, MetaData.init wStar 0) wVol wVol
      (some ⟨10, 20, 30⟩) true 0 1 = .ok wC5res := rfl
  have h := (c5_recenter_vector wExt wVol wVol).2.2.1
    (⟨2, 2, fun _ _ => 0⟩, MetaData.init wStar 0) ⟨10, 20, 30⟩ true 0 1 wC5res hr
  exact ⟨hr, h.1, h.2⟩

/-- C9.  Shape mismatch: when the particle image disagrees with the
projections in pixel dimensions, the subtraction fails with
`IncompatibleShapes` (in both modes), and an error from the results stage
aborts the whole run. -/
theorem c9_shape_mismatch (E : Ext) (p : EMImage × MetaData) (dens sub_dens : EMVolume)
    (rc : Option Vec3) (nf : Bool) (lo hi : ℚ)
    (hsub : ¬ (p.1.nx = (make_proj E sub_dens p.2).nx ∧ p.1.ny = (make_proj E sub_dens p.2).ny))
    (hwhole : ¬ (p.1.nx = (make_proj E dens p.2).nx ∧ p.1.ny = (make_proj E dens p.2).ny)) :
    subtract E p dens sub_dens rc nf lo hi = .error .IncompatibleShapes ∧
    (∀ (opts0 : Options) (star : StarFile) (fs0 : FS) (e : RunErr),
      resultsFor E (normOpts opts0) star dens sub_dens = .error e →
      mainRun E opts0 star dens sub_dens fs0 = .error e) := by
  constructor
  · rw [subtract_eq]
    by_cases hnf : nf = true
    · rw [if_pos hnf]
      have herr : p.1.subI (make_proj E sub_dens p.2) = .error .IncompatibleShapes := by
        unfold EMImage.subI
        rw [if_neg hsub]
      rw [herr]
      rfl
    · rw [if_neg hnf]
      have herr : mathSubOptimal E p.1 (make_proj E dens p.2) (make_proj E sub_dens p.2) lo hi =
          .error .IncompatibleShapes := by
        unfold mathSubOptimal
        rw [if_neg (by tauto)]
      rw [herr]
      rfl
  · intro opts0 star fs0 e h
    exact mainRun_err E opts0 star dens sub_dens fs0 e h

/-- C9 witness: a shape-incompatible run fails. -/
theorem c9_shape_mismatch_witness :
    subtract wExtBad (wExtBad.load "a.mrcs" 0, MetaData.init wStar 0) wVol wVol none true 0 1 =
      .error .IncompatibleShapes ∧
    mainRun wExtBad wOpts wStar wVol wVol wFS = .error .IncompatibleShapes := by
  have h := c9_shape_mismatch wExtBad (wExtBad.load "a.mrcs" 0, MetaData.init wStar 0)
    wVol wVol none true 0 1 (by decide) (by decide)
  exact ⟨h.1, h.2 wOpts wStar wFS .IncompatibleShapes (by rfl)⟩

/-- C10.  Input frame-index convention: an image reference `frame@path`
with an integer frame token makes the particles generator load position
`frame - 1` of the named stack; a non-integer token or a reference without
the separator aborts the run. -/
theorem c10_frame_index_convention (E : Ext) (star : StarFile) (i : ℕ) :
    (∀ (t p : String) (rest : List String) (f : ℤ),
      pySplit (star.cell "rlnImageName" i).pyStr '@' = t :: p :: rest →
      pyInt? t = some f →
      particlesStep E star i = some (E.load p (f - 1), MetaData.init star i)) ∧
    (∀ (t p : String) (rest : List String),
      pySplit (star.cell "rlnImageName" i).pyStr '@' = t :: p :: rest →
      pyInt? t = none → particlesStep E star i = none) ∧
    (∀ s : String, pySplit (star.cell "rlnImageName" i).pyStr '@' = [s] →
      particlesStep E star i = none) ∧
    (∀ fuel : ℕ, particlesStep E star i = none →
      particlesFrom E star i (fuel + 1) = .error .InputFormatError) ∧
    (∀ (opts0 : Options) (dens sub_dens : EMVolume) (fs0 : FS) (e : RunErr),
      particlesFrom E star 0 ((star.col "rlnImageName").length) = .error e →
      mainRun E opts0 star dens sub_dens fs0 = .error e) := by
  refine ⟨?_, ?_, ?_, ?_, ?_⟩
  · intro t p rest f hsplit hint
    unfold particlesStep
    rw [hsplit]
    show (match pyInt? t with
      | some n => some (E.load p (n - 1), MetaData.init star i)
      | none => none) = _
    rw [hint]
  · intro t p rest hsplit hint
    unfold particlesStep
    rw [hsplit]
    show (match pyInt? t with
      | some n => some (E.load p (n - 1), MetaData.init star i)
      | none => none) = _
    rw [hint]
  · intro s hsplit
    unfold particlesStep
    rw [hsplit]
  · intro fuel h
    exact particlesFrom_err E star i fuel h
  · intro opts0 dens sub_dens fs0 e h
    exact mainRun_err E opts0 star dens sub_dens fs0 e
      (resultsFor_err E (normOpts opts0) star dens sub_dens e h)

/-- C10 witness: concrete parses and a concrete aborted run. -/
theorem c10_frame_index_convention_witness :
    particlesStep wExt wStar 1 = some (wExt.load "a.mrcs" 1, MetaData.init wStar 1) ∧
    particlesStep wExt wStarBad1 0 = none ∧
    particlesStep wExt wStarBad2 0 = none ∧
    mainRun wExt wOpts wStarBad2 wVol wVol wFS = .error .InputFormatError := by
  refine ⟨?_, ?_, ?_, ?_⟩
  · exact (c10_frame_index_convention wExt wStar 1).1 "000002" "a.mrcs" [] 2
      (by decide) (by decide)
  · exact (c10_frame_index_convention wExt wStarBad1 0).2.1 "ab" "c.mrcs" []
      (by decide) (by decide)
  · exact (c10_frame_index_convention wExt wStarBad2 0).2.2.1 "abc" (by decide)
  · exact (c10_frame_index_convention wExt wStarBad2 0).2.2.2.2 wOpts wVol wVol wFS
      .InputFormatError (by rfl)

/-- C8 counterexample: the derived defocus astigmatism is not the plain
difference `U - V`; the source divides by 10000 (unit conversion), so with
`U = 20000` and `V = 0` the stored value is 2, not 20000. -/
theorem c8_counterexample :
    (MetaData.init wStar 0).dfdiff ≠
      wStar.num "rlnDefocusU" 0 - wStar.num "rlnDefocusV" 0 := by
  have hU : wStar.num "rlnDefocusU" 0 = 20000 := by decide
  have hV : wStar.num "rlnDefocusV" 0 = 0 := by decide
  have hd : (MetaData.init wStar 0).dfdiff =
      (wStar.num "rlnDefocusU" 0 - wStar.num "rlnDefocusV" 0) / 10000 := rfl
  rw [hd, hU, hV]
  norm_num

/-- C8 (amended).  Derived metadata fields: the mean of defocus U and V and
their difference, both divided by 10000 (the fixed unit conversion); the
astigmatism angle as 90 degrees minus the recorded angle; the pixel size as
10000 times the detector pixel size over the magnification; the amplitude
contrast scaled by 100; and a B-factor that is always exactly zero. -/
theorem c8_derived_fields (star : StarFile) (i : ℕ) :
    (MetaData.init star i).defocus =
      ((star.num "rlnDefocusU" i + star.num "rlnDefocusV" i) / 2) / 10000 ∧
    (MetaData.init star i).dfdiff =
      (star.num "rlnDefocusU" i - star.num "rlnDefocusV" i) / 10000 ∧
    (MetaData.init star i).dfang = 90 - star.num "rlnDefocusAngle" i ∧
    (MetaData.init star i).apix =
      10000 * star.num "rlnDetectorPixelSize" i / star.num "rlnMagnification" i ∧
    (MetaData.init star i).ac = star.num "rlnAmplitudeContrast" i * 100 ∧
    (MetaData.init star i).bfactor = 0 ∧
    (MetaData.init star i).ctf_params =
      [(MetaData.init star i).defocus, (MetaData.init star i).cs, (MetaData.init star i).voltage,
        (MetaData.init star i).apix, (MetaData.init star i).bfactor, (MetaData.init star i).ac,
        (MetaData.init star i).dfdiff, (MetaData.init star i).dfang] := by
  refine ⟨?_, rfl, rfl, rfl, rfl, rfl, rfl⟩
  show (star.num "rlnDefocusU" i + star.num "rlnDefocusV" i) / 20000 = _
  rw [div_div]
  norm_num

/-- A numeric cell read through the column: when the stored cell is a
numeric value, `num` returns it. -/
theorem num_of_cell_q (star : StarFile) (key : String) (k : ℕ) (q : ℚ)
    (h : (star.col key)[k]? = some (.q q)) : star.num key k = q := by
  have hk : k < (star.col key).length := by
    by_contra hk
    rw [List.getElem?_eq_none (Nat.le_of_not_lt hk)] at h
    exact Option.noConfusion h
  have hc := cell_getElem star key k hk
  rw [h] at hc
  injection hc with hc'
  show (star.cell key k).num = q
  rw [← hc']
  rfl

/-- C1.  Order preservation: a successful run produces one result per table
row; the k-th result carries record index k; the writer emits the k-th line
as the serialization of row k of the final table; and a result whose record
index differs from the writer's running count aborts the step, and with it
the whole output loop, with an assertion failure. -/
theorem c1_order_preservation (E : Ext) (opts0 : Options) (star : StarFile)
    (dens sub_dens : EMVolume) (fs0 : FS) (rs : List Result)
    (hm : 0 < opts0.maxpart)
    (hrs : resultsFor E (normOpts opts0) star dens sub_dens = .ok rs)
    (hOX : (star.col "rlnImageName").length ≤ (star.col "rlnOriginX").length)
    (hOY : (star.col "rlnImageName").length ≤ (star.col "rlnOriginY").length) :
    rs.length = (star.col "rlnImageName").length ∧
    (∀ k (hk : k < rs.length), (rs.get ⟨k, hk⟩).meta.i = k) ∧
    (∃ stf, mainRun E opts0 star dens sub_dens fs0 = .ok stf ∧
      stf.lines.length = rs.length ∧
      ∀ k, k < rs.length → stf.lines[k]? = some (serializeLine stf.star k)) ∧
    (∀ (opts : Options) (st : WState) (r : Result),
      r.meta.i ≠ st.i → writeStep E opts st r = .error .AssertionError) ∧
    (∀ (opts : Options) (st : WState) (r : Result) (rs' : List Result),
      r.meta.i ≠ st.i → writeLoop E opts (r :: rs') st = .error .AssertionError) := by
  obtain ⟨hlen, hspec⟩ := resultsFor_spec E (normOpts opts0) star dens sub_dens rs hrs
  obtain ⟨stf, hrun, _, _, _, _, _, hlenL, hold, _, _⟩ :=
    mainRun_ok_spec E opts0 star dens sub_dens fs0 rs hm hrs hOX hOY
  refine ⟨hlen, ?_, ⟨stf, hrun, hlenL, hold⟩, ?_, ?_⟩
  · intro k hk
    exact (hspec k hk).1
  · intro opts st r hne
    exact writeStep_err E opts st r hne
  · intro opts st r rs' hne
    exact writeLoop_err E opts st r rs' hne

/-- C1 witness: the concrete three-particle run emits rows in input order,
and a wrong-index result aborts the loop. -/
theorem c1_order_preservation_witness :
    resultsFor wExt (normOpts wOpts) wStar wVol wVol = .ok wRS ∧
    (wRS.get ⟨1, by decide⟩).meta.i = 1 ∧
    mainRun wExt wOpts wStar wVol wVol wFS = .ok wStf ∧
    wStf.lines.length = wRS.length ∧
    wStf.lines[1]? = some (serializeLine wStf.star 1) ∧
    writeLoop wExt wOpts [wBad] (initState wStar wFS) = .error .AssertionError := by
  have h := c1_order_preservation wExt wOpts wStar wVol wVol wFS wRS (by decide) rfl
    (by decide) (by decide)
  obtain ⟨stf, hrun, hlenL, hold⟩ := h.2.2.1
  have hw : mainRun wExt wOpts wStar wVol wVol wFS = .ok wStf := rfl
  rw [hrun] at hw
  injection hw with hse
  subst hse
  exact ⟨rfl, h.2.1 1 (by decide), hrun, hlenL, hold 1 (by decide),
    h.2.2.2.2 wOpts (initState wStar wFS) wBad [] (by decide)⟩

/-- C2.  Stack-size bound and rotation: `numStacks` is the ceiling of
`j / maxpart`; the rotation block fires exactly when the running count is a
multiple of `maxpart`, opening the next stack pair and deleting any
pre-existing files at those paths; after a successful run over the table
the next-file counter equals the stack count plus one, every produced stack
holds at most `maxpart` particles (with the exact per-stack count), the
original-particle stacks exist exactly when requested, and every other path
of the filesystem is untouched. -/
theorem c2_stack_rotation (E : Ext) (opts0 : Options) (star : StarFile)
    (dens sub_dens : EMVolume) (fs0 : FS) (rs : List Result)
    (hm : 0 < opts0.maxpart)
    (hrs : resultsFor E (normOpts opts0) star dens sub_dens = .ok rs)
    (hOX : (star.col "rlnImageName").length ≤ (star.col "rlnOriginX").length)
    (hOY : (star.col "rlnImageName").length ≤ (star.col "rlnOriginY").length) :
    (∀ j, opts0.maxpart * numStacks opts0.maxpart j < j + opts0.maxpart ∧
      j ≤ opts0.maxpart * numStacks opts0.maxpart j) ∧
    (∀ (opts : Options) (st : WState) (p : String), st.i % opts.maxpart = 0 →
      (rotateStacks E opts st).nfile = st.nfile + 1 ∧
      (rotateStacks E opts st).mrcs = some (mrcsPath opts.suffix st.nfile) ∧
      (rotateStacks E opts st).mrcsOrig = some (origPath opts.suffix st.nfile) ∧
      (rotateStacks E opts st).fs p =
        if p = mrcsPath opts.suffix st.nfile ∨ p = origPath opts.suffix st.nfile then none
        else st.fs p) ∧
    (∀ (opts : Options) (st : WState), ¬ st.i % opts.maxpart = 0 →
      rotateStacks E opts st = st) ∧
    ∃ stf, mainRun E opts0 star dens sub_dens fs0 = .ok stf ∧
      stf.nfile = numStacks opts0.maxpart rs.length + 1 ∧
      (∀ k, 1 ≤ k → k ≤ numStacks opts0.maxpart rs.length →
        ∃ l, stf.fs (mrcsPath (normOpts opts0).suffix k) = some l ∧
          l.length = min opts0.maxpart (rs.length - opts0.maxpart * (k - 1)) ∧
          l.length ≤ opts0.maxpart) ∧
      (∀ k, 1 ≤ k → k ≤ numStacks opts0.maxpart rs.length →
        (opts0.original = true →
          ∃ l, stf.fs (origPath (normOpts opts0).suffix k) = some l ∧
            l.length = min opts0.maxpart (rs.length - opts0.maxpart * (k - 1))) ∧
        (opts0.original = false → stf.fs (origPath (normOpts opts0).suffix k) = none)) ∧
      (∀ p, (∀ k, 1 ≤ k → k ≤ numStacks opts0.maxpart rs.length →
          p ≠ mrcsPath (normOpts opts0).suffix k ∧ p ≠ origPath (normOpts opts0).suffix k) →
        stf.fs p = fs0 p) := by
  obtain ⟨stf, hrun, hinv, _, _, _, _, _, _, _, _⟩ :=
    mainRun_ok_spec E opts0 star dens sub_dens fs0 rs hm hrs hOX hOY
  refine ⟨?_, ?_, ?_, stf, hrun, hinv.hnfile, ?_, ?_, hinv.hother⟩
  · intro j
    show opts0.maxpart * ((j + opts0.maxpart - 1) / opts0.maxpart) < j + opts0.maxpart ∧
      j ≤ opts0.maxpart * ((j + opts0.maxpart - 1) / opts0.maxpart)
    have h1 := Nat.div_add_mod (j + opts0.maxpart - 1) opts0.maxpart
    have h2 := Nat.mod_lt (j + opts0.maxpart - 1) hm
    revert h1 h2
    generalize (j + opts0.maxpart - 1) / opts0.maxpart = q
    generalize (j + opts0.maxpart - 1) % opts0.maxpart = r
    intro h1 h2
    omega
  · intro opts st p h
    exact ⟨rotateStacks_nfile_eq E opts st h, rotateStacks_mrcs_eq E opts st h,
      rotateStacks_morig_eq E opts st h, rotateStacks_fs_eq E opts st h p⟩
  · intro opts st h
    exact rotateStacks_of_ne E opts st h
  · intro k hk1 hk2
    obtain ⟨l, hl, hlc⟩ := hinv.hcount k hk1 hk2
    exact ⟨l, hl, hlc, by rw [hlc]; exact Nat.min_le_left _ _⟩
  · intro k hk1 hk2
    exact hinv.hcorig k hk1 hk2

/-- C2 witness: the concrete run over three particles with cap 2 produces
two stacks of sizes 2 and 1 (plus the original stacks), leaves unrelated
paths alone, and the rotation block deletes a pre-existing stack file. -/
theorem c2_stack_rotation_witness :
    resultsFor wExt (normOpts wOpts) wStar wVol wVol = .ok wRS ∧
    mainRun wExt wOpts wStar wVol wVol wFS = .ok wStf ∧
    wStf.nfile = 3 ∧
    FS.count wStf.fs (mrcsPath "sub" 1) = 2 ∧
    FS.count wStf.fs (mrcsPath "sub" 2) = 1 ∧
    FS.count wStf.fs (origPath "sub" 1) = 2 ∧
    wStf.fs "unrelated.mrcs" = none ∧
    wSt.fs (mrcsPath "sub" 1) ≠ none ∧
    (rotateStacks wExt wOpts wSt).fs (mrcsPath "sub" 1) = none ∧
    (rotateStacks wExt wOpts wSt).nfile = 2 := by
  have h := c2_stack_rotation wExt wOpts wStar wVol wVol wFS wRS (by decide) rfl
    (by decide) (by decide)
  obtain ⟨_, hrot, _, stf, hrun, hnf, hcnt, horig, hoth⟩ := h
  have hw : mainRun wExt wOpts wStar wVol wVol wFS = .ok wStf := rfl
  rw [hrun] at hw
  injection hw with hse
  subst hse
  have hlen : wRS.length = 3 := by decide
  have hsuf : (normOpts wOpts).suffix = "sub" := by decide
  refine ⟨rfl, hrun, ?_, ?_, ?_, ?_, ?_, ?_, ?_, ?_⟩
  · rw [hnf, hlen]
    decide
  · obtain ⟨l, hl, hlc, _⟩ := hcnt 1 (by decide) (by decide)
    rw [hsuf] at hl
    show ((wStf.fs (mrcsPath "sub" 1)).getD []).length = 2
    rw [hl]
    show l.length = 2
    rw [hlc, hlen]
    decide
  · obtain ⟨l, hl, hlc, _⟩ := hcnt 2 (by decide) (by decide)
    rw [hsuf] at hl
    show ((wStf.fs (mrcsPath "sub" 2)).getD []).length = 1
    rw [hl]
    show l.length = 1
    rw [hlc, hlen]
    decide
  · obtain ⟨l, hl, hlc⟩ := (horig 1 (by decide) (by decide)).1 rfl
    rw [hsuf] at hl
    show ((wStf.fs (origPath "sub" 1)).getD []).length = 2
    rw [hl]
    show l.length = 2
    rw [hlc, hlen]
    decide
  · have hu := hoth "unrelated.mrcs" ?_
    · exact hu.trans rfl
    · intro k hk1 hk2
      have h2 : numStacks wOpts.maxpart wRS.length = 2 := by decide
      rw [h2] at hk2
      rw [hsuf]
      interval_cases k
      · exact ⟨by decide, by decide⟩
      · exact ⟨by decide, by decide⟩
  · intro hnone
    exact Option.noConfusion hnone
  · exact ((hrot wOpts wSt (mrcsPath "sub" 1) (by decide)).2.2.2).trans rfl
  · exact ((hrot wOpts wSt (mrcsPath "sub" 1) (by decide)).1).trans rfl

/-- C3.  Output image-name rewriting: a serialized output line is the row's
cells joined in the table's original heading order; the in-stack index is
zero-padded to width six; after a successful run the heading order is
preserved, row k's image name is the string
`fmt6 (k mod maxpart + 1) ++ "@" ++ <relative stack path>`, and the k-th
emitted line is the serialization of row k. -/
theorem c3_image_name_rewrite (E : Ext) (opts0 : Options) (star : StarFile)
    (dens sub_dens : EMVolume) (fs0 : FS) (rs : List Result)
    (hm : 0 < opts0.maxpart)
    (hrs : resultsFor E (normOpts opts0) star dens sub_dens = .ok rs)
    (hOX : (star.col "rlnImageName").length ≤ (star.col "rlnOriginX").length)
    (hOY : (star.col "rlnImageName").length ≤ (star.col "rlnOriginY").length) :
    (∀ (s : StarFile) (k : ℕ),
      serializeLine s k =
        String.intercalate "  " (s.headings.map fun key => (s.cell key k).pyStr)) ∧
    (∀ n, (fmt6 n).length = max 6 (Nat.repr n).length) ∧
    ∃ stf, mainRun E opts0 star dens sub_dens fs0 = .ok stf ∧
      stf.star.headings = star.headings ∧
      (∀ k, k < rs.length → (stf.star.col "rlnImageName")[k]? =
        some (.s (fmt6 (k % opts0.maxpart + 1) ++ "@"
          ++ relStarPath E (normOpts opts0).suffix (normOpts opts0).output
            (numStacks opts0.maxpart (k + 1))))) ∧
      (∀ k, k < rs.length → stf.lines[k]? = some (serializeLine stf.star k)) := by
  obtain ⟨stf, hrun, _, hh, _, _, _, _, hold, hIN, _⟩ :=
    mainRun_ok_spec E opts0 star dens sub_dens fs0 rs hm hrs hOX hOY
  exact ⟨fun _ _ => rfl, fmt6_length, stf, hrun, hh, hIN, hold⟩

/-- C3 witness: in the concrete run, rows 0 and 2 are renamed to the first
slot of the first and second stacks, and line 0 serializes row 0. -/
theorem c3_image_name_rewrite_witness :
    resultsFor wExt (normOpts wOpts) wStar wVol wVol = .ok wRS ∧
    mainRun wExt wOpts wStar wVol wVol wFS = .ok wStf ∧
    (wStf.star.col "rlnImageName")[0]? = some (.s "000001@sub_1.mrcs") ∧
    (wStf.star.col "rlnImageName")[1]? = some (.s "000002@sub_1.mrcs") ∧
    (wStf.star.col "rlnImageName")[2]? = some (.s "000001@sub_2.mrcs") ∧
    wStf.star.headings = wStar.headings ∧
    wStf.lines[0]? = some (serializeLine wStf.star 0) := by
  have h := c3_image_name_rewrite wExt wOpts wStar wVol wVol wFS wRS (by decide) rfl
    (by decide) (by decide)
  obtain ⟨_, _, stf, hrun, hh, hIN, hold⟩ := h
  have hw : mainRun wExt wOpts wStar wVol wVol wFS = .ok wStf := rfl
  rw [hrun] at hw
  injection hw with hse
  subst hse
  exact ⟨rfl, hrun, (hIN 0 (by decide)).trans (by decide),
    (hIN 1 (by decide)).trans (by decide), (hIN 2 (by decide)).trans (by decide),
    hh, hold 0 (by decide)⟩

/-- C6.  Frame effect: the metadata write-back touches only the origin
columns; the recentering vector is `none` when the flag is off, in which
case subtraction returns the metadata unchanged; and after a successful
non-recentered run every column other than the image name and the origins
equals its input, and the origin columns (when numerically populated)
exactly equal the input columns. -/
theorem c6_frame_effect (E : Ext) (opts0 : Options) (star : StarFile)
    (dens sub_dens : EMVolume) (fs0 : FS) (rs : List Result)
    (hm : 0 < opts0.maxpart)
    (hrs : resultsFor E (normOpts opts0) star dens sub_dens = .ok rs)
    (hOX : (star.col "rlnImageName").length ≤ (star.col "rlnOriginX").length)
    (hOY : (star.col "rlnImageName").length ≤ (star.col "rlnOriginY").length) :
    (∀ (m : MetaData) (s : StarFile) (key : String),
      key ≠ "rlnOriginX" → key ≠ "rlnOriginY" → (m.update s).col key = s.col key) ∧
    mainRecenter false E.phase_cog dens sub_dens = none ∧
    (∀ (p : EMImage × MetaData) (nf : Bool) (lo hi : ℚ) (r : Result),
      subtract E p dens sub_dens none nf lo hi = .ok r → r.meta = p.2) ∧
    ∃ stf, mainRun E opts0 star dens sub_dens fs0 = .ok stf ∧
      (∀ key, key ≠ "rlnImageName" → key ≠ "rlnOriginX" → key ≠ "rlnOriginY" →
        stf.star.col key = star.col key) ∧
      (opts0.recenter = false →
        (∀ k, k < rs.length →
          (∃ q, (star.col "rlnOriginX")[k]? = some (.q q)) ∧
          (∃ q, (star.col "rlnOriginY")[k]? = some (.q q))) →
        stf.star.col "rlnOriginX" = star.col "rlnOriginX" ∧
        stf.star.col "rlnOriginY" = star.col "rlnOriginY") := by
  obtain ⟨hlenr, hspec⟩ := resultsFor_spec E (normOpts opts0) star dens sub_dens rs hrs
  obtain ⟨stf, hrun, _, _, hne, _, hrows, _, _, _, hOXY⟩ :=
    mainRun_ok_spec E opts0 star dens sub_dens fs0 rs hm hrs hOX hOY
  refine ⟨fun m s key h1 h2 => update_col_ne m s key h1 h2, rfl, ?_, stf, hrun, hne, ?_⟩
  · intro p nf lo hi r h
    exact (subtract_ok_meta E p dens sub_dens none nf lo hi r h).2.1 rfl
  · intro hrec hq
    have hrecN : (normOpts opts0).recenter = false := hrec
    constructor
    · apply List.ext_getElem?
      intro n
      by_cases hn : n < rs.length
      · have hx := (hOXY n hn).1
        have hmeta := (hspec n hn).2.1 hrecN
        obtain ⟨qv, hq'⟩ := (hq n hn).1
        have hnum : star.num "rlnOriginX" n = qv := num_of_cell_q star "rlnOriginX" n qv hq'
        rw [hmeta] at hx
        have hxo : (MetaData.init star n).x_origin = star.num "rlnOriginX" n := rfl
        rw [hx, hq', hxo, hnum]
      · exact hrows _ n (Nat.le_of_not_lt hn)
    · apply List.ext_getElem?
      intro n
      by_cases hn : n < rs.length
      · have hy := (hOXY n hn).2
        have hmeta := (hspec n hn).2.1 hrecN
        obtain ⟨qv, hq'⟩ := (hq n hn).2
        have hnum : star.num "rlnOriginY" n = qv := num_of_cell_q star "rlnOriginY" n qv hq'
        rw [hmeta] at hy
        have hyo : (MetaData.init star n).y_origin = star.num "rlnOriginY" n := rfl
        rw [hy, hq', hyo, hnum]
      · exact hrows _ n (Nat.le_of_not_lt hn)

/-- C6 witness: in the concrete non-recentered run the defocus column and
both origin columns come out exactly equal to the input, the write-back
leaves a non-origin column alone, and the recenter vector is `none`. -/
theorem c6_frame_effect_witness :
    resultsFor wExt (normOpts wOpts) wStar wVol wVol = .ok wRS ∧
    mainRun wExt wOpts wStar wVol wVol wFS = .ok wStf ∧
    wStf.star.col "rlnDefocusU" = wStar.col "rlnDefocusU" ∧
    wStf.star.col "rlnOriginX" = wStar.col "rlnOriginX" ∧
    wStf.star.col "rlnOriginY" = wStar.col "rlnOriginY" ∧
    (wBad.meta.update wStar).col "rlnDefocusV" = wStar.col "rlnDefocusV" ∧
    mainRecenter false wExt.phase_cog wVol wVol = none := by
  have h := c6_frame_effect wExt wOpts wStar wVol wVol wFS wRS (by decide) rfl
    (by decide) (by decide)
  obtain ⟨hupd, hmr, _, stf, hrun, hne, hrec⟩ := h
  have hw : mainRun wExt wOpts wStar wVol wVol wFS = .ok wStf := rfl
  rw [hrun] at hw
  injection hw with hse
  subst hse
  have hlen : wRS.length = 3 := by decide
  have hq : ∀ k, k < wRS.length →
      (∃ q, (wStar.col "rlnOriginX")[k]? = some (.q q)) ∧
      (∃ q, (wStar.col "rlnOriginY")[k]? = some (.q q)) := by
    intro k hk
    rw [hlen] at hk
    interval_cases k
    · exact ⟨⟨1, by decide⟩, ⟨4, by decide⟩⟩
    · exact ⟨⟨2, by decide⟩, ⟨5, by decide⟩⟩
    · exact ⟨⟨3, by decide⟩, ⟨6, by decide⟩⟩
  obtain ⟨hX, hY⟩ := hrec rfl hq
  exact ⟨rfl, hrun, hne "rlnDefocusU" (by decide) (by decide) (by decide), hX, hY,
    hupd wBad.meta wStar "rlnDefocusV" (by decide) (by decide), hmr⟩

end ProjSub
